import Mathlib

/-
Verification of the stake-allocation core of the arb-calculator (src/app.js).

The JavaScript number semantics is modelled by the inductive type `J`:
a finite IEEE double is idealised as an exact rational (`J.num q`), and the
special values Infinity, -Infinity and NaN are explicit constructors.  The
arithmetic on `J` follows the JavaScript rules for special values (NaN
propagation, 0 * Infinity = NaN, comparisons with NaN are false, and so on);
arithmetic between finite values is exact rational arithmetic.

`round2` models `Math.round((x + Number.EPSILON) * 100) / 100` exactly, with
`Number.EPSILON = 2 ^ (-52)` as an exact rational and `Math.round` as
floor (x + 1/2).
-/

set_option allowUnsafeReducibility true
attribute [semireducible] Rat.add Rat.mul Rat.inv Rat.sub

namespace ArbCalc

/-- Model of a JavaScript number: finite (exact rational), +Infinity,
-Infinity, or NaN. -/
inductive J where
  | num : ℚ → J
  | inf : J
  | ninf : J
  | nan : J
  deriving DecidableEq, Repr

/-- JavaScript addition on numbers. -/
def jadd : J → J → J
  | .nan, _ => .nan
  | _, .nan => .nan
  | .inf, .ninf => .nan
  | .ninf, .inf => .nan
  | .inf, _ => .inf
  | _, .inf => .inf
  | .ninf, _ => .ninf
  | _, .ninf => .ninf
  | .num a, .num b => .num (a + b)

/-- JavaScript subtraction on numbers. -/
def jsub : J → J → J
  | .nan, _ => .nan
  | _, .nan => .nan
  | .inf, .inf => .nan
  | .ninf, .ninf => .nan
  | .inf, _ => .inf
  | .ninf, _ => .ninf
  | _, .inf => .ninf
  | _, .ninf => .inf
  | .num a, .num b => .num (a - b)

/-- JavaScript multiplication on numbers (0 * Infinity = NaN). -/
def jmul : J → J → J
  | .nan, _ => .nan
  | _, .nan => .nan
  | .inf, .inf => .inf
  | .inf, .ninf => .ninf
  | .ninf, .inf => .ninf
  | .ninf, .ninf => .inf
  | .inf, .num b => if 0 < b then .inf else if b < 0 then .ninf else .nan
  | .ninf, .num b => if 0 < b then .ninf else if b < 0 then .inf else .nan
  | .num a, .inf => if 0 < a then .inf else if a < 0 then .ninf else .nan
  | .num a, .ninf => if 0 < a then .ninf else if a < 0 then .inf else .nan
  | .num a, .num b => .num (a * b)

/-- JavaScript division on numbers (finite / 0 = signed Infinity or NaN,
finite / Infinity = 0, Infinity / Infinity = NaN). -/
def jdiv : J → J → J
  | .nan, _ => .nan
  | _, .nan => .nan
  | .inf, .inf => .nan
  | .inf, .ninf => .nan
  | .ninf, .inf => .nan
  | .ninf, .ninf => .nan
  | .inf, .num b => if 0 ≤ b then .inf else .ninf
  | .ninf, .num b => if 0 ≤ b then .ninf else .inf
  | .num _, .inf => .num 0
  | .num _, .ninf => .num 0
  | .num a, .num b =>
    if b = 0 then (if 0 < a then .inf else if a < 0 then .ninf else .nan)
    else .num (a / b)

/-- JavaScript strict `<` (false whenever an operand is NaN). -/
def jlt : J → J → Bool
  | .num a, .num b => decide (a < b)
  | .num _, .inf => true
  | .ninf, .num _ => true
  | .ninf, .inf => true
  | _, _ => false

/-- JavaScript `<=` (false whenever an operand is NaN). -/
def jle : J → J → Bool
  | .num a, .num b => decide (a ≤ b)
  | .num _, .inf => true
  | .ninf, .num _ => true
  | .ninf, .inf => true
  | .ninf, .ninf => true
  | .inf, .inf => true
  | _, _ => false

/-- `Math.max(0, x)`: NaN propagates, -Infinity clamps to 0. -/
def jmax0 : J → J
  | .nan => .nan
  | .inf => .inf
  | .ninf => .num 0
  | .num a => .num (max 0 a)

/-- `Math.abs`. -/
def jabs : J → J
  | .nan => .nan
  | .inf => .inf
  | .ninf => .inf
  | .num a => .num |a|

/-- The JavaScript idiom `x || 0`: NaN (and 0 itself) become 0, everything
else is kept. -/
def orZero : J → J
  | .nan => .num 0
  | x => x

/-- `isNum` from src/app.js line 23: `Number.isFinite(x) && !Number.isNaN(x)`,
i.e. the value is a finite number. -/
def isNum : J → Bool
  | .num _ => true
  | _ => false

/-- `Number.EPSILON = 2 ^ (-52)` as an exact rational. -/
def eps : ℚ := 1 / 4503599627370496

/-- Exact model of `round2` on a finite value:
`Math.round((x + Number.EPSILON) * 100) / 100` with
`Math.round y = floor (y + 1/2)`. -/
def r2 (a : ℚ) : ℚ := (⌊(a + eps) * 100 + 1 / 2⌋ : ℚ) / 100

/-- `round2` from src/app.js line 24, on the JavaScript number model
(`Math.round` maps the special values to themselves). -/
def round2 : J → J
  | .num a => .num (r2 a)
  | .inf => .inf
  | .ninf => .ninf
  | .nan => .nan

/-- One outcome row of the Position: odds, stake, distribution flag R,
manual-override flag (src/app.js line 20). -/
structure Row where
  odds : J
  stake : J
  R : Bool
  manual : Bool
  deriving DecidableEq, Repr

/-- The default row pushed by `ensureRows` (src/app.js line 30). -/
def defaultRow : Row := { odds := J.num 2, stake := J.num 0, R := true, manual := false }

/-- The mutable state of src/app.js lines 16-21: row count, optional fixed
row index, bankroll, and the row list. -/
structure St where
  n : ℕ
  fixedIndex : Option ℕ
  bank : J
  rows : List Row
  deriving DecidableEq, Repr

/-- `ensureRows` (src/app.js lines 28-37): pad with default rows up to `n`,
truncate to `n`, and clear `fixedIndex` when it is out of range.  (The
`typeof r.manual` normalisation is the identity in this typed model.) -/
def ensureRows (st : St) : St :=
  { st with
    rows := (st.rows ++ List.replicate (st.n - st.rows.length) defaultRow).take st.n
    fixedIndex := match st.fixedIndex with
      | some j => if j < st.n then some j else none
      | none => none }

/-- `sumStakes` (src/app.js lines 39-41): sum of `max(0, stake)` over rows
whose stake is a finite number, rounded to 2 decimals. -/
def sumStakes (rows : List Row) : J :=
  round2 (rows.foldl (fun s r => jadd s (if isNum r.stake then jmax0 r.stake else J.num 0)) (J.num 0))

/-- `invSumOdds` (src/app.js lines 43-45): sum of `1/o`, where any odds not
strictly positive (including NaN) contributes Infinity. -/
def invSumOdds (odds : List J) : J :=
  odds.foldl (fun s o => jadd s (if jlt (J.num 0) o then jdiv (J.num 1) o else J.inf)) (J.num 0)

/-- The recipient-only inverse-odds sum `AR` (src/app.js lines 74 and 103):
`odds.reduce((s,o,i) => s + (isR[i] ? (o>0 ? 1/o : Infinity) : 0), 0)`,
rendered on the zip of the two equally long lists. -/
def invSumOddsR (odds : List J) (isR : List Bool) : J :=
  (odds.zip isR).foldl
    (fun s p => jadd s (if p.2 then (if jlt (J.num 0) p.1 then jdiv (J.num 1) p.1 else J.inf) else J.num 0))
    (J.num 0)

/-- `suggestFromBank` (src/app.js lines 70-93). -/
def suggestFromBank (bank : J) (rows : List Row) : List J :=
  let odds := rows.map (fun r => r.odds)
  let isR := rows.map (fun r => r.R)
  let A := invSumOdds odds
  let AR := invSumOddsR odds isR
  let T := jmax0 (orZero bank)
  let K := if jlt (J.num 0) AR then jdiv (jmul T (jsub (J.num 1) A)) AR else J.num 0
  let stakes := (odds.zip isR).map
    (fun p => if jle p.1 (J.num 0) then J.num 0
              else if p.2 then jdiv (jadd T K) p.1 else jdiv T p.1)
  let stakes := stakes.map (fun s => round2 (jmax0 s))
  let total := round2 (stakes.foldl jadd (J.num 0))
  let delta := round2 (jsub T total)
  if jle (J.num (1 / 100)) (jabs delta) then
    match rows.findIdx? (fun r => r.R) with
    | some k => stakes.set k (round2 (jmax0 (jadd (stakes.getD k (J.num 0)) delta)))
    | none => stakes
  else stakes

/-- `suggestFromFixedRow` (src/app.js lines 95-128).  Returns `none` exactly
when the indexed row is missing or is not a distribution recipient. -/
def suggestFromFixedRow (fixedIdx : ℕ) (rows : List Row) : Option (List J) :=
  match rows[fixedIdx]? with
  | none => none
  | some fr =>
    if fr.R = false then none else
    let odds := rows.map (fun r => r.odds)
    let isR := rows.map (fun r => r.R)
    let A := invSumOdds odds
    let AR := invSumOddsR odds isR
    let sj := jmax0 (orZero fr.stake)
    let oj := odds.getD fixedIdx J.nan
    let denom := jadd (jsub (J.num 1) A) AR
    let TK : J × J :=
      if jlt (jabs denom) (J.num (1 / 1000000000000)) then
        (jmul sj oj, J.num 0)
      else
        (jdiv (jmul (jmul sj oj) AR) denom,
         jsub (jmul sj oj) (jdiv (jmul (jmul sj oj) AR) denom))
    let stakes := (odds.zip isR).map
      (fun p => if jle p.1 (J.num 0) then J.num 0
                else if p.2 then jdiv (jadd TK.1 TK.2) p.1 else jdiv TK.1 p.1)
    let stakes := stakes.map (fun s => round2 (jmax0 s))
    some (stakes.set fixedIdx (round2 sj))

/-- The odds-error message of src/app.js line 267. -/
def oddsMsg : String := "Коэффициент должен быть числом > 1."

/-- The stake-error message of src/app.js line 271. -/
def stakeMsg : String := "Ставка должна быть >= 0."

/-- The per-row odds failure condition of src/app.js line 266:
`!isNum(r.odds) || r.odds <= 1 || r.odds >= 100000`. -/
def oddsBad (r : Row) : Bool :=
  !(isNum r.odds) || jle r.odds (J.num 1) || jle (J.num 100000) r.odds

/-- The per-row stake failure condition of src/app.js line 270:
`!isNum(r.stake) || r.stake < 0`. -/
def stakeBad (r : Row) : Bool :=
  !(isNum r.stake) || jlt r.stake (J.num 0)

/-- `validate` (src/app.js lines 255-283).  The row loop runs over `state.n`
indices in the source; after `ensureRows` this equals the row-list length, so
it is rendered as a traversal of the row list.  An out-of-range `fixedIndex`
would throw in JavaScript (never reached, `ensureRows` runs first); here it
yields `ok = false`. -/
def validate (st : St) : Bool × List (String × String) :=
  let errors := st.rows.map (fun r =>
    ((if oddsBad r then oddsMsg else ""), (if stakeBad r then stakeMsg else "")))
  let ok := !(!(isNum st.bank) || jlt st.bank (J.num 0))
  let ok := ok && !(decide ((st.rows.filter (fun r => r.R)).length < 1))
  let ok := ok && (st.rows.all (fun r => !(oddsBad r) && !(stakeBad r)))
  let ok := ok && (match st.fixedIndex with
    | none => true
    | some j => match st.rows[j]? with
      | none => false
      | some fr => fr.R && !(!(isNum fr.stake) || jle fr.stake (J.num 0)))
  (ok, errors)

/-- The per-row overwrite eligibility of src/app.js line 321: not the fixed
row, not manual, not focused, and the suggested stake is a finite number. -/
def mergeCond (fi : Option ℕ) (sug : List J) (sf : List Bool) (i : ℕ) (r : Row) : Prop :=
  fi ≠ some i ∧ r.manual = false ∧ sf.getD i false = false ∧ isNum (sug.getD i J.nan) = true

instance (fi : Option ℕ) (sug : List J) (sf : List Bool) (i : ℕ) (r : Row) :
    Decidable (mergeCond fi sug sf i r) := by
  unfold mergeCond; infer_instance

/-- One step of the overwrite loop of src/app.js lines 309-325. -/
def mergeStep (fi : Option ℕ) (sug : List J) (sf : List Bool) (i : ℕ) (r : Row) : Row :=
  if mergeCond fi sug sf i r then { r with stake := sug.getD i J.nan } else r

/-- The overwrite loop of src/app.js lines 309-325, as an index-carrying
traversal: each eligible row receives the suggested stake. -/
def mergeRows (fi : Option ℕ) (sug : List J) (sf : List Bool) : ℕ → List Row → List Row
  | _, [] => []
  | i, r :: rs => mergeStep fi sug sf i r :: mergeRows fi sug sf (i + 1) rs

/-- The solver dispatch of src/app.js lines 294-300: fixed-row-driven when a
fixed row is set, falling back to bankroll-driven when it returns null. -/
def suggestedFor (st : St) : List J :=
  match st.fixedIndex with
  | some j =>
    match suggestFromFixedRow j st.rows with
    | some s => s
    | none => suggestFromBank st.bank st.rows
  | none => suggestFromBank st.bank st.rows

/-- Per-row payouts of src/app.js line 337: `round2(max(0, stake) * odds)`. -/
def payoutsOf (rows : List Row) : List J :=
  rows.map (fun r => round2 (jmul (jmax0 r.stake) r.odds))

/-- Per-row profits of src/app.js line 338: `round2(payout - total)`. -/
def profitsOf (rows : List Row) (total : J) : List J :=
  (payoutsOf rows).map (fun p => round2 (jsub p total))

/-- The arbitrage indicator of src/app.js lines 341-342:
`invSumOdds(odds) < 1`. -/
def isArbOf (odds : List J) : Bool := jlt (invSumOdds odds) (J.num 1)

/-- The outputs of one recompute pass that reach the view layer. -/
structure Out where
  ok : Bool
  errors : List (String × String)
  total : J
  payouts : List J
  profits : List J
  sInv : J
  isArb : Bool
  roi : J
  roiRow : ℕ
  bankDisp : J
  deriving DecidableEq, Repr

/-- `recalcAndPaint` (src/app.js lines 285-389) as a pure function of the
state, the bankroll input value, the per-row stake-focus signals (`sf`, read
positionally; a missing entry means not focused) and the bankroll-focus
signal.  Returns the updated state and the displayed outputs. -/
def recalc (st : St) (bankVal : J) (sf : List Bool) (bankFocused : Bool) : St × Out :=
  let st1 := ensureRows st
  let st2 : St := { st1 with bank := bankVal }
  let v := validate st2
  let sug := suggestedFor st2
  let rows := mergeRows st2.fixedIndex sug sf 0 st2.rows
  let total := sumStakes rows
  let bank2 := if bankFocused then st2.bank else total
  let payouts := payoutsOf rows
  let profits := profitsOf rows total
  let sInv := invSumOdds (rows.map (fun r => r.odds))
  let arb := isArbOf (rows.map (fun r => r.odds))
  let roiRow : ℕ := match st2.fixedIndex with
    | some j => j
    | none => match rows.findIdx? (fun r => r.R) with
      | some k => k
      | none => 0
  let win := payouts.getD roiRow (J.num 0)
  let roi := if jlt (J.num 0) total then jdiv (jsub win total) total else J.num 0
  ({ st2 with rows := rows, bank := bank2 },
   { ok := v.1, errors := v.2, total := total, payouts := payouts, profits := profits,
     sInv := sInv, isArb := arb, roi := roi, roiRow := roiRow, bankDisp := bank2 })

/-- Replace the stakes of a row list by a stake vector (used to state the
properties of a Position whose stakes are the solver output). -/
def applyStakes (rows : List Row) (ss : List J) : List Row :=
  List.zipWith (fun r s => { r with stake := s }) rows ss

/-! ### Basic facts about the exact rounding function `r2` -/

lemma eps_pos : 0 < eps := by norm_num [eps]

lemma eps_small : eps ≤ 1 / 39800 := by norm_num [eps]

lemma r2_le (a : ℚ) : r2 a ≤ a + eps + 1 / 200 := by
  have h := Int.floor_le ((a + eps) * 100 + 1 / 2)
  rw [r2]
  linarith

lemma lt_r2 (a : ℚ) : a + eps - 1 / 200 < r2 a := by
  have h := Int.sub_one_lt_floor ((a + eps) * 100 + 1 / 2)
  rw [r2]
  linarith

/-- The rounding error of `r2` is at most 1/199 (namely 1/200 plus the
epsilon perturbation). -/
lemma abs_r2_sub_le (a : ℚ) : |r2 a - a| ≤ 1 / 199 := by
  have h1 := r2_le a
  have h2 := lt_r2 a
  have h3 := eps_pos
  have h4 := eps_small
  rw [abs_le]
  constructor <;> linarith

lemma r2_nonneg {a : ℚ} (h : 0 ≤ a) : 0 ≤ r2 a := by
  have h0 : (0 : ℤ) ≤ ⌊(a + eps) * 100 + 1 / 2⌋ := by
    rw [Int.le_floor]
    have := eps_pos
    push_cast
    nlinarith
  rw [r2]
  positivity

/-- A rational is a whole number of cents. -/
def isCents (a : ℚ) : Prop := ∃ k : ℤ, a = k / 100

lemma isCents_r2 (a : ℚ) : isCents (r2 a) := ⟨_, rfl⟩

lemma isCents.add {a b : ℚ} (ha : isCents a) (hb : isCents b) : isCents (a + b) := by
  obtain ⟨k, rfl⟩ := ha
  obtain ⟨m, rfl⟩ := hb
  exact ⟨k + m, by push_cast; ring⟩

lemma isCents.neg {a : ℚ} (ha : isCents a) : isCents (-a) := by
  obtain ⟨k, rfl⟩ := ha
  exact ⟨-k, by push_cast; ring⟩

lemma isCents_zero : isCents 0 := ⟨0, by norm_num⟩

lemma isCents.max0 {a : ℚ} (ha : isCents a) : isCents (max 0 a) := by
  rcases le_total 0 a with h | h
  · rwa [max_eq_right h]
  · rw [max_eq_left h]; exact isCents_zero

/-- `r2` is the identity on whole numbers of cents. -/
lemma r2_fix {a : ℚ} (ha : isCents a) : r2 a = a := by
  obtain ⟨k, rfl⟩ := ha
  have : ((k : ℚ) / 100 + eps) * 100 + 1 / 2 = (k : ℚ) + (eps * 100 + 1 / 2) := by ring
  rw [r2, this, Int.floor_int_add]
  have h0 : ⌊(eps * 100 + 1 / 2 : ℚ)⌋ = 0 := by
    rw [Int.floor_eq_iff]
    constructor <;> norm_num [eps]
  rw [h0]
  push_cast
  ring

/-- A nonzero whole number of cents has magnitude at least one cent. -/
lemma isCents.one_le_abs {a : ℚ} (ha : isCents a) (h : a ≠ 0) : 1 / 100 ≤ |a| := by
  obtain ⟨k, rfl⟩ := ha
  have hk : k ≠ 0 := by
    rintro rfl
    simp at h
  have h1 : (1 : ℚ) ≤ |(k : ℚ)| := by exact_mod_cast Int.one_le_abs hk
  rw [abs_div, abs_of_pos (show (0 : ℚ) < 100 by norm_num)]
  linarith

lemma sum_isCents : ∀ {l : List ℚ}, (∀ a ∈ l, isCents a) → isCents l.sum := by
  intro l
  induction l with
  | nil => intro _; simpa using isCents_zero
  | cons a l ih =>
    intro h
    rw [List.sum_cons]
    exact (h a (by simp)).add (ih fun b hb => h b (by simp [hb]))

/-- Summed rounding error over a list. -/
lemma sum_map_r2_close : ∀ (l : List ℚ), |(l.map r2).sum - l.sum| ≤ l.length * (1 / 199) := by
  intro l
  induction l with
  | nil => simp
  | cons a l ih =>
    have h1 := abs_r2_sub_le a
    have h2 : |(r2 a + (l.map r2).sum) - (a + l.sum)| ≤ |r2 a - a| + |(l.map r2).sum - l.sum| := by
      have := abs_add (r2 a - a) ((l.map r2).sum - l.sum)
      calc |(r2 a + (l.map r2).sum) - (a + l.sum)|
          = |(r2 a - a) + ((l.map r2).sum - l.sum)| := by ring_nf
        _ ≤ _ := this
    simp only [List.map_cons, List.sum_cons, List.length_cons]
    push_cast
    calc |r2 a + (l.map r2).sum - (a + l.sum)| ≤ |r2 a - a| + |(l.map r2).sum - l.sum| := h2
      _ ≤ 1 / 199 + l.length * (1 / 199) := by gcongr
      _ = (l.length + 1) * (1 / 199) := by ring

/-! ### Computation rules for the JavaScript-number operations -/

@[simp] lemma jadd_num (a b : ℚ) : jadd (J.num a) (J.num b) = J.num (a + b) := rfl

@[simp] lemma jsub_num (a b : ℚ) : jsub (J.num a) (J.num b) = J.num (a - b) := rfl

@[simp] lemma jmul_num (a b : ℚ) : jmul (J.num a) (J.num b) = J.num (a * b) := rfl

@[simp] lemma jmax0_num (a : ℚ) : jmax0 (J.num a) = J.num (max 0 a) := rfl

@[simp] lemma jabs_num (a : ℚ) : jabs (J.num a) = J.num |a| := rfl

@[simp] lemma round2_num (a : ℚ) : round2 (J.num a) = J.num (r2 a) := rfl

@[simp] lemma orZero_num (a : ℚ) : orZero (J.num a) = J.num a := rfl

@[simp] lemma isNum_num (a : ℚ) : isNum (J.num a) = true := rfl

@[simp] lemma jlt_num (a b : ℚ) : jlt (J.num a) (J.num b) = decide (a < b) := rfl

@[simp] lemma jle_num (a b : ℚ) : jle (J.num a) (J.num b) = decide (a ≤ b) := rfl

lemma jdiv_num {b : ℚ} (a : ℚ) (hb : b ≠ 0) : jdiv (J.num a) (J.num b) = J.num (a / b) := by
  simp [jdiv, hb]

/-! ### Small list helpers -/

lemma getD_map_num : ∀ (qs : List ℚ) (k : ℕ) (d : ℚ),
    (qs.map J.num).getD k (J.num d) = J.num (qs.getD k d) := by
  intro qs
  induction qs with
  | nil => intro k d; simp
  | cons q qs ih =>
    intro k d
    cases k with
    | zero => simp
    | succ k => simp [ih k d]

lemma foldl_jadd_num (qs : List ℚ) : ∀ a : ℚ,
    (qs.map J.num).foldl jadd (J.num a) = J.num (a + qs.sum) := by
  induction qs with
  | nil => intro a; simp
  | cons q qs ih =>
    intro a
    simp only [List.map_cons, List.foldl_cons, jadd_num]
    rw [ih (a + q), List.sum_cons]
    ring_nf

lemma sum_set_eq (x : ℚ) : ∀ (qs : List ℚ) (k : ℕ), k < qs.length →
    (qs.set k x).sum = qs.sum - qs.getD k 0 + x := by
  intro qs
  induction qs with
  | nil => intro k h; simp at h
  | cons q qs ih =>
    intro k h
    cases k with
    | zero => simp [List.sum_cons]; ring
    | succ k =>
      simp only [List.set_cons_succ, List.sum_cons, List.getD_cons_succ]
      rw [ih k (by simpa using h)]
      ring

lemma findIdx?_congr {α β : Type} (p : α → Bool) (q : β → Bool) :
    ∀ (l₁ : List α) (l₂ : List β), l₁.map p = l₂.map q →
    ∀ i : ℕ, List.findIdx? p l₁ i = List.findIdx? q l₂ i := by
  intro l₁
  induction l₁ with
  | nil =>
    intro l₂ h i
    cases l₂ with
    | nil => rfl
    | cons b l₂ => simp at h
  | cons a l₁ ih =>
    intro l₂ h i
    cases l₂ with
    | nil => simp at h
    | cons b l₂ =>
      simp only [List.map_cons, List.cons.injEq] at h
      simp only [List.findIdx?]
      rw [h.1, ih l₂ h.2 (i + 1)]

lemma findIdx?_some_spec {α : Type} (p : α → Bool) :
    ∀ (l : List α) (i k : ℕ), List.findIdx? p l i = some k →
    i ≤ k ∧ ∃ x, l[k - i]? = some x ∧ p x = true := by
  intro l
  induction l with
  | nil => intro i k h; simp [List.findIdx?] at h
  | cons a l ih =>
    intro i k h
    simp only [List.findIdx?] at h
    by_cases ha : p a
    · rw [if_pos ha] at h
      obtain rfl : i = k := by simpa using h
      refine ⟨le_refl _, a, ?_, ha⟩
      simp
    · rw [if_neg ha] at h
      obtain ⟨h1, x, h2, h3⟩ := ih (i + 1) k h
      refine ⟨by omega, x, ?_, h3⟩
      have : k - i = (k - (i + 1)) + 1 := by omega
      rw [this]
      simpa using h2

lemma findIdx?_isSome_of_mem {α : Type} (p : α → Bool) :
    ∀ (l : List α) (i : ℕ), (∃ x ∈ l, p x = true) →
    (List.findIdx? p l i).isSome = true := by
  intro l
  induction l with
  | nil => intro i h; simp at h
  | cons a l ih =>
    intro i h
    simp only [List.findIdx?]
    by_cases ha : p a
    · simp [ha]
    · rw [if_neg ha]
      apply ih
      obtain ⟨x, hx, hpx⟩ := h
      rcases List.mem_cons.mp hx with hx | hx
      · exact absurd (hx ▸ hpx) ha
      · exact ⟨x, hx, hpx⟩

/-! ### Exact rational mirror of the two solvers (used for analysis)

`l : List (ℚ × Bool)` abbreviates the rows of a Position with finite,
strictly positive odds: each entry is (odds, distributionFlag).  The
definitions below mirror `suggestFromBank` and `suggestFromFixedRow` on this
fragment; the bridge lemmas further down prove that on such rows the
JavaScript-number functions compute exactly these rational values. -/

/-- Inverse-odds sum `A` over a list of odds. -/
def AQ (os : List ℚ) : ℚ := (os.map (fun o => 1 / o)).sum

/-- Recipient-only inverse-odds sum `AR`. -/
def ARQ (l : List (ℚ × Bool)) : ℚ := (l.map (fun p => if p.2 then 1 / p.1 else 0)).sum

/-- Raw (unrounded) stake of a row: `(T+K)/o` for a recipient, `T/o`
otherwise. -/
def rawQ (T K : ℚ) (p : ℚ × Bool) : ℚ := if p.2 then (T + K) / p.1 else T / p.1

/-- Per-recipient profit `K = T*(1-A)/AR` of the bankroll-driven solver
(0 when there is no recipient). -/
def KQ (T : ℚ) (l : List (ℚ × Bool)) : ℚ :=
  if 0 < ARQ l then T * (1 - AQ (l.map Prod.fst)) / ARQ l else 0

/-- Rounded clamped stakes of the bankroll-driven solver, before the
residual correction. -/
def stakes0Q (T : ℚ) (l : List (ℚ × Bool)) : List ℚ :=
  l.map (fun p => r2 (max 0 (rawQ T (KQ T l) p)))

/-- The rounded total of the pre-correction stakes. -/
def totalPreQ (T : ℚ) (l : List (ℚ × Bool)) : ℚ := r2 (stakes0Q T l).sum

/-- The rounding residual `delta = round2(T - total)`. -/
def deltaQ (T : ℚ) (l : List (ℚ × Bool)) : ℚ := r2 (T - totalPreQ T l)

/-- The index of the first recipient row (0 when there is none). -/
def kQ (l : List (ℚ × Bool)) : ℕ := (l.findIdx? (fun p => p.2)).getD 0

/-- Exact rational mirror of `suggestFromBank` with `T = max(0, bank)`. -/
def bankQ (T : ℚ) (l : List (ℚ × Bool)) : List ℚ :=
  if 1 / 100 ≤ |deltaQ T l| then
    match l.findIdx? (fun p => p.2) with
    | some k => (stakes0Q T l).set k (r2 (max 0 ((stakes0Q T l).getD k 0 + deltaQ T l)))
    | none => stakes0Q T l
  else stakes0Q T l

/-- The odds of the fixed row. -/
def fixedOj (j : ℕ) (l : List (ℚ × Bool)) : ℚ := (l.map Prod.fst).getD j 0

/-- The fixed-row denominator `1 - A + AR`. -/
def fixedDenQ (l : List (ℚ × Bool)) : ℚ := 1 - AQ (l.map Prod.fst) + ARQ l

/-- The derived total `T = (sj*oj*AR) / (1 - A + AR)` of the fixed-row
solver (non-degenerate branch). -/
def fixedTQ (j : ℕ) (s : ℚ) (l : List (ℚ × Bool)) : ℚ :=
  max 0 s * fixedOj j l * ARQ l / fixedDenQ l

/-- Exact rational mirror of `suggestFromFixedRow` for a recipient fixed row
with finite stake `s`. -/
def fixedQ (j : ℕ) (s : ℚ) (l : List (ℚ × Bool)) : List ℚ :=
  let sj := max 0 s
  let oj := fixedOj j l
  let TK : ℚ × ℚ :=
    if |fixedDenQ l| < 1 / 1000000000000 then (sj * oj, 0)
    else (fixedTQ j s l, sj * oj - fixedTQ j s l)
  (l.map (fun p => r2 (max 0 (rawQ TK.1 TK.2 p)))).set j (r2 sj)

/-! ### Algebraic facts about the rational mirror -/

lemma AQ_nonneg {os : List ℚ} (h : ∀ o ∈ os, 0 < o) : 0 ≤ AQ os := by
  induction os with
  | nil => simp [AQ]
  | cons o os ih =>
    have h0 : 0 < o := h o (by simp)
    have h1 : 0 ≤ AQ os := ih (fun x hx => h x (by simp [hx]))
    simp only [AQ, List.map_cons, List.sum_cons] at *
    have : 0 ≤ 1 / o := by positivity
    linarith

lemma ARQ_nonneg {l : List (ℚ × Bool)} (h : ∀ p ∈ l, 0 < p.1) : 0 ≤ ARQ l := by
  induction l with
  | nil => simp [ARQ]
  | cons p l ih =>
    have h1 : 0 ≤ ARQ l := ih (fun x hx => h x (by simp [hx]))
    simp only [ARQ, List.map_cons, List.sum_cons] at *
    have : (0:ℚ) ≤ if p.2 then 1 / p.1 else 0 := by
      by_cases hp : p.2 <;> simp [hp]
      have := h p (by simp)
      positivity
    linarith

lemma ARQ_pos {l : List (ℚ × Bool)} (h : ∀ p ∈ l, 0 < p.1)
    (hR : ∃ p ∈ l, p.2 = true) : 0 < ARQ l := by
  induction l with
  | nil => simp at hR
  | cons p l ih =>
    have h1 : 0 ≤ ARQ l := ARQ_nonneg (fun x hx => h x (by simp [hx]))
    simp only [ARQ, List.map_cons, List.sum_cons]
    rcases hR with ⟨q, hq, hq2⟩
    rcases List.mem_cons.mp hq with rfl | hq
    · rw [hq2, if_pos rfl]
      simp only [ARQ] at h1
      have hq1 := h q (by simp)
      have : 0 < 1 / q.1 := by positivity
      linarith
    · have h2 : 0 < ARQ l := ih (fun x hx => h x (by simp [hx])) ⟨q, hq, hq2⟩
      have : (0:ℚ) ≤ if p.2 then 1 / p.1 else 0 := by
        by_cases hp : p.2 <;> simp [hp]
        have := h p (by simp)
        positivity
      simp only [ARQ] at h2
      linarith

/-- The unrounded stakes sum to `T*A + K*AR`. -/
lemma rawQ_sum (T K : ℚ) : ∀ (l : List (ℚ × Bool)),
    (l.map (rawQ T K)).sum = T * AQ (l.map Prod.fst) + K * ARQ l := by
  intro l
  induction l with
  | nil => simp [AQ, ARQ]
  | cons p l ih =>
    have hA : AQ ((p :: l).map Prod.fst) = 1 / p.1 + AQ (l.map Prod.fst) := by
      simp [AQ]
    have hAR : ARQ (p :: l) = (if p.2 then 1 / p.1 else 0) + ARQ l := by
      simp [ARQ]
    rw [List.map_cons, List.sum_cons, ih, hA, hAR]
    by_cases hp : p.2 = true
    · simp only [rawQ, hp, if_true]
      rw [add_div]
      ring
    · simp only [rawQ, hp, Bool.false_eq_true, if_false]
      ring

/-- With at least one recipient, the unrounded bankroll-driven stakes sum
exactly to `T`. -/
lemma rawQ_sum_bank {T : ℚ} {l : List (ℚ × Bool)} (h : ∀ p ∈ l, 0 < p.1)
    (hR : ∃ p ∈ l, p.2 = true) :
    (l.map (rawQ T (KQ T l))).sum = T := by
  have hAR := ARQ_pos h hR
  rw [rawQ_sum, KQ, if_pos hAR]
  field_simp
  ring

/-! ### Bridge: the JavaScript-number solvers compute the rational mirror -/

lemma map_num_fst (l : List (ℚ × Bool)) :
    l.map (fun p => J.num p.1) = (l.map Prod.fst).map J.num := by
  simp [List.map_map, Function.comp]

lemma invSumOdds_fold (os : List ℚ) (h : ∀ o ∈ os, 0 < o) :
    ∀ a : ℚ, (os.map J.num).foldl
      (fun s o => jadd s (if jlt (J.num 0) o then jdiv (J.num 1) o else J.inf)) (J.num a)
      = J.num (a + AQ os) := by
  induction os with
  | nil => intro a; simp [AQ]
  | cons o os ih =>
    intro a
    have ho : 0 < o := h o (by simp)
    have hos : ∀ x ∈ os, 0 < x := fun x hx => h x (by simp [hx])
    simp only [List.map_cons, List.foldl_cons]
    have h1 : (if jlt (J.num 0) (J.num o) then jdiv (J.num 1) (J.num o) else J.inf)
        = J.num (1 / o) := by
      rw [jlt_num, if_pos (by simpa using ho), jdiv_num _ (ne_of_gt ho)]
    rw [h1, jadd_num, ih hos (a + 1 / o)]
    have : AQ (o :: os) = 1 / o + AQ os := by simp [AQ]
    rw [this]
    ring_nf

/-- On finite strictly positive odds, `invSumOdds` computes the rational
inverse-odds sum. -/
lemma invSumOdds_eq_num (os : List ℚ) (h : ∀ o ∈ os, 0 < o) :
    invSumOdds (os.map J.num) = J.num (AQ os) := by
  rw [invSumOdds, invSumOdds_fold os h 0, zero_add]

lemma invSumOddsR_fold (l : List (ℚ × Bool)) (h : ∀ p ∈ l, 0 < p.1) :
    ∀ a : ℚ, (l.map (fun p => (J.num p.1, p.2))).foldl
      (fun s p => jadd s (if p.2 then (if jlt (J.num 0) p.1 then jdiv (J.num 1) p.1 else J.inf) else J.num 0))
      (J.num a)
      = J.num (a + ARQ l) := by
  induction l with
  | nil => intro a; simp [ARQ]
  | cons p l ih =>
    intro a
    have hp1 : 0 < p.1 := h p (by simp)
    have hl : ∀ x ∈ l, 0 < x.1 := fun x hx => h x (by simp [hx])
    simp only [List.map_cons, List.foldl_cons]
    have h1 : (if p.2 then (if jlt (J.num 0) (J.num p.1) then jdiv (J.num 1) (J.num p.1) else J.inf) else J.num 0)
        = J.num (if p.2 then 1 / p.1 else 0) := by
      by_cases h2 : p.2 = true
      · rw [h2, if_pos rfl, if_pos rfl, jlt_num,
          if_pos (by simpa using hp1), jdiv_num _ (ne_of_gt hp1)]
      · simp [h2]
    rw [h1, jadd_num, ih hl _]
    have : ARQ (p :: l) = (if p.2 then 1 / p.1 else 0) + ARQ l := by simp [ARQ]
    rw [this]
    ring_nf

/-- On finite strictly positive odds, `invSumOddsR` computes the rational
recipient-only inverse-odds sum. -/
lemma invSumOddsR_eq_num (l : List (ℚ × Bool)) (h : ∀ p ∈ l, 0 < p.1) :
    invSumOddsR (l.map (fun p => J.num p.1)) (l.map Prod.snd) = J.num (ARQ l) := by
  rw [invSumOddsR, List.zip_map', invSumOddsR_fold l h 0, zero_add]

lemma map_round2_max0 (qs : List ℚ) :
    (qs.map J.num).map (fun s => round2 (jmax0 s)) = (qs.map (fun q => r2 (max 0 q))).map J.num := by
  rw [List.map_map, List.map_map]
  apply List.map_congr_left
  intro q _
  rfl

/-- Bridge for the bankroll-driven solver: on a valid-shaped Position
(finite, strictly positive odds) with finite bankroll `b`, the JavaScript
computation returns exactly the rational mirror with `T = max 0 b`. -/
theorem suggestFromBank_eq (b : ℚ) (rows : List Row) (l : List (ℚ × Bool))
    (ho : rows.map (fun r => r.odds) = l.map (fun p => J.num p.1))
    (hr : rows.map (fun r => r.R) = l.map Prod.snd)
    (hpos : ∀ p ∈ l, 0 < p.1) :
    suggestFromBank (J.num b) rows = (bankQ (max 0 b) l).map J.num := by
  have hfst : ∀ o ∈ l.map Prod.fst, 0 < o := by
    intro o ho'
    obtain ⟨p, hp, rfl⟩ := List.mem_map.mp ho'
    exact hpos p hp
  have hA : invSumOdds (rows.map (fun r => r.odds)) = J.num (AQ (l.map Prod.fst)) := by
    rw [ho, map_num_fst]
    exact invSumOdds_eq_num _ hfst
  have hAR : invSumOddsR (rows.map (fun r => r.odds)) (rows.map (fun r => r.R))
      = J.num (ARQ l) := by
    rw [ho, hr]
    exact invSumOddsR_eq_num l hpos
  have hzip : (rows.map (fun r => r.odds)).zip (rows.map (fun r => r.R))
      = l.map (fun p => (J.num p.1, p.2)) := by
    rw [ho, hr, List.zip_map']
  have hT0 : jmax0 (orZero (J.num b)) = J.num (max 0 b) := rfl
  have hK : (if jlt (J.num 0) (J.num (ARQ l)) then
        jdiv (jmul (J.num (max 0 b)) (jsub (J.num 1) (J.num (AQ (l.map Prod.fst))))) (J.num (ARQ l))
      else J.num 0) = J.num (KQ (max 0 b) l) := by
    by_cases hARp : 0 < ARQ l
    · rw [jlt_num, if_pos (by simpa using hARp), jsub_num, jmul_num,
        jdiv_num _ (ne_of_gt hARp), KQ, if_pos hARp]
    · rw [jlt_num, if_neg (by simpa using hARp), KQ, if_neg hARp]
  have hstakes : (l.map (fun p => (J.num p.1, p.2))).map
      (fun p => if jle p.1 (J.num 0) then J.num 0
                else if p.2 then jdiv (jadd (J.num (max 0 b)) (J.num (KQ (max 0 b) l))) p.1
                else jdiv (J.num (max 0 b)) p.1)
      = (l.map (rawQ (max 0 b) (KQ (max 0 b) l))).map J.num := by
    rw [List.map_map, List.map_map]
    apply List.map_congr_left
    intro p hp
    have h0 := hpos p hp
    simp only [Function.comp]
    rw [jle_num, if_neg (by simpa using not_le.mpr h0)]
    by_cases h2 : p.2 = true
    · rw [if_pos (by simpa using h2), jadd_num, jdiv_num _ (ne_of_gt h0)]
      simp [rawQ, h2]
    · rw [if_neg (by simpa using h2), jdiv_num _ (ne_of_gt h0)]
      simp [rawQ, h2]
  have hs0 : (l.map (rawQ (max 0 b) (KQ (max 0 b) l))).map (fun q => r2 (max 0 q))
      = stakes0Q (max 0 b) l := by
    rw [stakes0Q, List.map_map]
    rfl
  have hfi : List.findIdx? (fun r => r.R) rows = List.findIdx? (fun p => p.2) l :=
    findIdx?_congr _ _ rows l (by rw [hr]) 0
  rw [suggestFromBank]
  simp only [hA, hAR, hzip, hT0, hK, hstakes, hs0, hfi]
  rw [map_round2_max0, hs0, foldl_jadd_num, zero_add]
  rw [show round2 (J.num (stakes0Q (max 0 b) l).sum) = J.num (totalPreQ (max 0 b) l) from rfl]
  rw [jsub_num, round2_num]
  rw [show r2 (max 0 b - totalPreQ (max 0 b) l) = deltaQ (max 0 b) l from rfl]
  rw [jabs_num, jle_num]
  by_cases hg : 1 / 100 ≤ |deltaQ (max 0 b) l|
  · rw [if_pos (by simpa using hg), bankQ, if_pos hg]
    cases hfind : List.findIdx? (fun p => p.2) l with
    | none => rfl
    | some k =>
      dsimp only
      rw [getD_map_num, jadd_num, jmax0_num, round2_num, ← List.map_set]
  · rw [if_neg (by simpa using hg), bankQ, if_neg hg]

lemma getD_of_getElem? {α : Type} {x : α} : ∀ {l : List α} {j : ℕ}, l[j]? = some x →
    ∀ d : α, l.getD j d = x := by
  intro l
  induction l with
  | nil => intro j h; simp at h
  | cons a l ih =>
    intro j h d
    cases j with
    | zero => simp_all
    | succ j =>
      simp only [List.getElem?_cons_succ] at h
      rw [List.getD_cons_succ]
      exact ih h d

/-- The per-row stake formula on finite positive odds, shared by both
solvers. -/
lemma stakes_map_eq (T K : ℚ) (l : List (ℚ × Bool)) (hpos : ∀ p ∈ l, 0 < p.1) :
    (l.map (fun p => (J.num p.1, p.2))).map
      (fun p => if jle p.1 (J.num 0) then J.num 0
                else if p.2 then jdiv (jadd (J.num T) (J.num K)) p.1
                else jdiv (J.num T) p.1)
      = (l.map (rawQ T K)).map J.num := by
  rw [List.map_map, List.map_map]
  apply List.map_congr_left
  intro p hp
  have h0 := hpos p hp
  simp only [Function.comp]
  rw [jle_num, if_neg (by simpa using not_le.mpr h0)]
  by_cases h2 : p.2 = true
  · rw [if_pos (by simpa using h2), jadd_num, jdiv_num _ (ne_of_gt h0)]
    simp [rawQ, h2]
  · rw [if_neg (by simpa using h2), jdiv_num _ (ne_of_gt h0)]
    simp [rawQ, h2]

/-- Bridge for the fixed-row-driven solver: on a valid-shaped Position whose
fixed row `j` is a recipient with finite stake `s`, the JavaScript
computation returns exactly the rational mirror. -/
theorem suggestFromFixedRow_eq (j : ℕ) (s oj : ℚ) (fr : Row) (rows : List Row)
    (l : List (ℚ × Bool))
    (ho : rows.map (fun r => r.odds) = l.map (fun p => J.num p.1))
    (hr : rows.map (fun r => r.R) = l.map Prod.snd)
    (hpos : ∀ p ∈ l, 0 < p.1)
    (hfr : rows[j]? = some fr)
    (hfrR : fr.R = true)
    (hstake : fr.stake = J.num s)
    (hlj : l[j]? = some (oj, true)) :
    suggestFromFixedRow j rows = some ((fixedQ j s l).map J.num) := by
  have hfst : ∀ o ∈ l.map Prod.fst, 0 < o := by
    intro o ho'
    obtain ⟨p, hp, rfl⟩ := List.mem_map.mp ho'
    exact hpos p hp
  have hA : invSumOdds (rows.map (fun r => r.odds)) = J.num (AQ (l.map Prod.fst)) := by
    rw [ho, map_num_fst]
    exact invSumOdds_eq_num _ hfst
  have hAR : invSumOddsR (rows.map (fun r => r.odds)) (rows.map (fun r => r.R))
      = J.num (ARQ l) := by
    rw [ho, hr]
    exact invSumOddsR_eq_num l hpos
  have hzip : (rows.map (fun r => r.odds)).zip (rows.map (fun r => r.R))
      = l.map (fun p => (J.num p.1, p.2)) := by
    rw [ho, hr, List.zip_map']
  have hsj : jmax0 (orZero fr.stake) = J.num (max 0 s) := by rw [hstake]; rfl
  have hoj : (rows.map (fun r => r.odds)).getD j J.nan = J.num (fixedOj j l) := by
    rw [ho]
    have h1 : (l.map (fun p => J.num p.1))[j]? = some (J.num oj) := by
      rw [List.getElem?_map, hlj]
      rfl
    have h2 : (l.map Prod.fst)[j]? = some oj := by
      rw [List.getElem?_map, hlj]
      rfl
    rw [getD_of_getElem? h1, fixedOj, getD_of_getElem? h2]
  have hoj_pos : 0 < fixedOj j l := by
    have h2 : (l.map Prod.fst)[j]? = some oj := by
      rw [List.getElem?_map, hlj]
      rfl
    rw [fixedOj, getD_of_getElem? h2]
    exact hpos (oj, true) (List.mem_iff_getElem?.mpr ⟨j, hlj⟩)
  rw [suggestFromFixedRow, hfr]
  dsimp only
  rw [if_neg (by simp [hfrR])]
  simp only [hA, hAR, hzip, hsj, hoj]
  rw [jsub_num, jadd_num]
  rw [show (1 : ℚ) - AQ (l.map Prod.fst) + ARQ l = fixedDenQ l from rfl]
  rw [jabs_num, jlt_num]
  by_cases hdeg : |fixedDenQ l| < 1 / 1000000000000
  · rw [if_pos (by simpa using hdeg)]
    dsimp only
    rw [jmul_num]
    rw [stakes_map_eq _ _ l hpos, map_round2_max0, round2_num, ← List.map_set, List.map_map]
    rw [fixedQ]
    rw [if_pos hdeg]
    rfl
  · rw [if_neg (by simpa using hdeg)]
    have hden : fixedDenQ l ≠ 0 := by
      intro h0
      rw [h0] at hdeg
      simp at hdeg
    dsimp only
    rw [jmul_num, jmul_num, jdiv_num _ hden, jsub_num]
    rw [show max 0 s * fixedOj j l * ARQ l / fixedDenQ l = fixedTQ j s l from rfl]
    rw [stakes_map_eq _ _ l hpos, map_round2_max0, round2_num, ← List.map_set, List.map_map]
    rw [fixedQ]
    rw [if_neg hdeg]
    rfl

/-! ### Rounding analysis of the bankroll-driven solver -/

lemma getElem?_some_lt {α : Type} {l : List α} {k : ℕ} {x : α} (h : l[k]? = some x) :
    k < l.length := by
  by_contra hk
  rw [List.getElem?_eq_none (by omega)] at h
  simp at h

lemma rawQ_nonneg {T K : ℚ} (hT : 0 ≤ T) (hTK : 0 ≤ T + K) {p : ℚ × Bool}
    (hp : 0 < p.1) : 0 ≤ rawQ T K p := by
  rw [rawQ]
  split
  · positivity
  · positivity

lemma KQ_nonneg {T : ℚ} {l : List (ℚ × Bool)} (hT : 0 ≤ T)
    (hA : AQ (l.map Prod.fst) ≤ 1) : 0 ≤ KQ T l := by
  rw [KQ]
  split
  · rename_i h
    have h1 : 0 ≤ 1 - AQ (l.map Prod.fst) := by linarith
    positivity
  · exact le_refl 0

/-- When every row is a recipient, `AR = A` and the corrected total
`T + K = T + T*(1-A)/A = T/A` is non-negative whatever the inverse-odds
sum, so no recipient stake is clamped at zero. -/
lemma TK_nonneg_of_all {T : ℚ} {l : List (ℚ × Bool)}
    (hall : ∀ p ∈ l, p.2 = true) (hT : 0 ≤ T) : 0 ≤ T + KQ T l := by
  have hAeq : AQ (l.map Prod.fst) = ARQ l := by
    rw [AQ, ARQ, List.map_map]
    congr 1
    apply List.map_congr_left
    intro p hp
    simp [Function.comp, hall p hp]
  rw [KQ]
  split
  · rename_i hAR
    rw [hAeq]
    have h1 : T + T * (1 - ARQ l) / ARQ l = T / ARQ l := by
      rw [eq_div_iff (ne_of_gt hAR), add_mul, div_mul_cancel₀ _ (ne_of_gt hAR)]
      ring
    rw [h1]
    exact div_nonneg hT (le_of_lt hAR)
  · linarith

lemma stakes0Q_eq_map_r2 {T : ℚ} {l : List (ℚ × Bool)}
    (hraw : ∀ p ∈ l, 0 ≤ rawQ T (KQ T l) p) :
    stakes0Q T l = (l.map (rawQ T (KQ T l))).map r2 := by
  rw [stakes0Q, List.map_map]
  apply List.map_congr_left
  intro p hp
  simp only [Function.comp]
  rw [max_eq_right (hraw p hp)]

lemma stakes0Q_cents {T : ℚ} {l : List (ℚ × Bool)} :
    ∀ x ∈ stakes0Q T l, isCents x := by
  intro x hx
  obtain ⟨p, _, rfl⟩ := List.mem_map.mp hx
  exact isCents_r2 _

lemma stakes0Q_nonneg {T : ℚ} {l : List (ℚ × Bool)} :
    ∀ x ∈ stakes0Q T l, 0 ≤ x := by
  intro x hx
  obtain ⟨p, _, rfl⟩ := List.mem_map.mp hx
  exact r2_nonneg (le_max_left 0 _)

lemma totalPreQ_eq_sum {T : ℚ} (l : List (ℚ × Bool)) :
    totalPreQ T l = (stakes0Q T l).sum :=
  r2_fix (sum_isCents stakes0Q_cents)

lemma deltaQ_cents (T : ℚ) (l : List (ℚ × Bool)) : isCents (deltaQ T l) := isCents_r2 _

/-- Under the zero-clamp-free hypotheses, the pre-correction total is within
`n/199` of `T`. -/
lemma stakes0Q_sum_close {T : ℚ} {l : List (ℚ × Bool)} (hpos : ∀ p ∈ l, 0 < p.1)
    (hR : ∃ p ∈ l, p.2 = true) (hTK : 0 ≤ T + KQ T l) (hT : 0 ≤ T) :
    |(stakes0Q T l).sum - T| ≤ l.length * (1 / 199) := by
  have hraw : ∀ p ∈ l, 0 ≤ rawQ T (KQ T l) p :=
    fun p hp => rawQ_nonneg hT hTK (hpos p hp)
  rw [stakes0Q_eq_map_r2 hraw]
  have h1 := sum_map_r2_close (l.map (rawQ T (KQ T l)))
  rw [rawQ_sum_bank hpos hR, List.length_map] at h1
  exact h1

/-- Conservation for the bankroll-driven solver: with at least one recipient,
inverse-odds sum at most 1 (no clamping of recipient stakes) and a residual
correction that does not clamp, the rounded stakes sum to `T` within one
cent. -/
theorem bankQ_sum_close {T : ℚ} {l : List (ℚ × Bool)}
    (hR : ∃ p ∈ l, p.2 = true)
    (hcl : deltaQ T l ≠ 0 → 0 ≤ (stakes0Q T l).getD (kQ l) 0 + deltaQ T l) :
    |(bankQ T l).sum - T| ≤ 1 / 100 := by
  have htp := totalPreQ_eq_sum (T := T) l
  by_cases hd : deltaQ T l = 0
  · rw [bankQ, if_neg (by rw [hd]; norm_num)]
    have h1 := abs_r2_sub_le (T - totalPreQ T l)
    have h2 : r2 (T - totalPreQ T l) = 0 := hd
    rw [h2, zero_sub, abs_neg, htp, abs_sub_comm] at h1
    linarith [h1]
  · have hd1 : 1 / 100 ≤ |deltaQ T l| := (deltaQ_cents T l).one_le_abs hd
    rw [bankQ, if_pos hd1]
    have hsome := findIdx?_isSome_of_mem (fun p => p.2) l 0 hR
    cases hfind : List.findIdx? (fun p => p.2) l with
    | none => rw [hfind] at hsome; simp at hsome
    | some k =>
      dsimp only
      have hkk : kQ l = k := by rw [kQ, hfind]; rfl
      obtain ⟨_, x, hx, _⟩ := findIdx?_some_spec _ l 0 k hfind
      rw [Nat.sub_zero] at hx
      have hklen : k < l.length := getElem?_some_lt hx
      have hsklen : k < (stakes0Q T l).length := by
        rw [stakes0Q, List.length_map]
        exact hklen
      have hgetk : (stakes0Q T l)[k]? = some (r2 (max 0 (rawQ T (KQ T l) x))) := by
        rw [stakes0Q, List.getElem?_map, hx]
        rfl
      have hcents_k : isCents ((stakes0Q T l).getD k 0) := by
        rw [getD_of_getElem? hgetk]
        exact isCents_r2 _
      have hnn : 0 ≤ (stakes0Q T l).getD k 0 + deltaQ T l := by
        rw [← hkk]
        exact hcl hd
      have hv : r2 (max 0 ((stakes0Q T l).getD k 0 + deltaQ T l))
          = (stakes0Q T l).getD k 0 + deltaQ T l := by
        rw [max_eq_right hnn]
        exact r2_fix (hcents_k.add (deltaQ_cents T l))
      rw [hv, sum_set_eq _ (stakes0Q T l) k hsklen]
      have h1 := abs_r2_sub_le (T - totalPreQ T l)
      rw [show r2 (T - totalPreQ T l) = deltaQ T l from rfl, htp] at h1
      have : (stakes0Q T l).sum - (stakes0Q T l).getD k 0
          + ((stakes0Q T l).getD k 0 + deltaQ T l) - T
          = deltaQ T l - (T - (stakes0Q T l).sum) := by ring
      rw [this]
      calc |deltaQ T l - (T - (stakes0Q T l).sum)| ≤ 1 / 199 := h1
        _ ≤ 1 / 100 := by norm_num

lemma abs_deltaQ_le {T : ℚ} {l : List (ℚ × Bool)} (hpos : ∀ p ∈ l, 0 < p.1)
    (hR : ∃ p ∈ l, p.2 = true) (hTK : 0 ≤ T + KQ T l) (hT : 0 ≤ T) :
    |deltaQ T l| ≤ (l.length + 1) * (1 / 199) := by
  have htp := totalPreQ_eq_sum (T := T) l
  have h1 := stakes0Q_sum_close hpos hR hTK hT
  have h2 := abs_r2_sub_le (T - (stakes0Q T l).sum)
  have h3 : deltaQ T l = r2 (T - (stakes0Q T l).sum) := by rw [deltaQ, htp]
  rw [abs_sub_comm] at h1
  rw [h3]
  calc |r2 (T - (stakes0Q T l).sum)|
      = |(r2 (T - (stakes0Q T l).sum) - (T - (stakes0Q T l).sum)) + (T - (stakes0Q T l).sum)| := by
        ring_nf
    _ ≤ |r2 (T - (stakes0Q T l).sum) - (T - (stakes0Q T l).sum)| + |T - (stakes0Q T l).sum| :=
        abs_add _ _
    _ ≤ 1 / 199 + l.length * (1 / 199) := by gcongr
    _ = (l.length + 1) * (1 / 199) := by ring

lemma bankQ_length (T : ℚ) (l : List (ℚ × Bool)) : (bankQ T l).length = l.length := by
  rw [bankQ]
  split
  · cases hfind : List.findIdx? (fun p => p.2) l with
    | none => rw [stakes0Q, List.length_map]
    | some k =>
      dsimp only
      rw [List.length_set, stakes0Q, List.length_map]
  · rw [stakes0Q, List.length_map]

lemma bankQ_mem {T : ℚ} {l : List (ℚ × Bool)} :
    ∀ x ∈ bankQ T l, 0 ≤ x ∧ isCents x := by
  intro x hx
  rw [bankQ] at hx
  have hbase : ∀ y ∈ stakes0Q T l, 0 ≤ y ∧ isCents y :=
    fun y hy => ⟨stakes0Q_nonneg y hy, stakes0Q_cents y hy⟩
  split at hx
  · rcases hfind : List.findIdx? (fun p => p.2) l with _ | k
    · rw [hfind] at hx
      exact hbase x hx
    · rw [hfind] at hx
      dsimp only at hx
      rcases List.mem_or_eq_of_mem_set hx with hx' | rfl
      · exact hbase x hx'
      · exact ⟨r2_nonneg (le_max_left 0 _), isCents_r2 _⟩
  · exact hbase x hx

/-- The solver entry of a non-recipient row `i` is exactly `round2 (T/oi)`
(the residual correction only ever touches a recipient row). -/
lemma bankQ_getElem_nonR {T oi : ℚ} {l : List (ℚ × Bool)} {i : ℕ}
    (hpos : ∀ p ∈ l, 0 < p.1) (hT : 0 ≤ T) (hi : l[i]? = some (oi, false)) :
    (bankQ T l)[i]? = some (r2 (T / oi)) := by
  have hoi : 0 < oi := hpos (oi, false) (List.mem_iff_getElem?.mpr ⟨i, hi⟩)
  have hbase : (stakes0Q T l)[i]? = some (r2 (T / oi)) := by
    rw [stakes0Q, List.getElem?_map, hi]
    dsimp only [Option.map]
    have h1 : rawQ T (KQ T l) (oi, false) = T / oi := by simp [rawQ]
    rw [h1, max_eq_right (by positivity)]
  rw [bankQ]
  split
  · cases hfind : List.findIdx? (fun p => p.2) l with
    | none => exact hbase
    | some k =>
      dsimp only
      obtain ⟨_, x, hx, hpx⟩ := findIdx?_some_spec _ l 0 k hfind
      rw [Nat.sub_zero] at hx
      have hik : i ≠ k := by
        rintro rfl
        rw [hi] at hx
        obtain rfl : x = (oi, false) := by simpa using hx.symm
        simp at hpx
      rw [List.getElem?_set_ne (by omega)]
      exact hbase
  · exact hbase

/-- The solver entry of a recipient row `i` multiplies back to `T + K` up
to the accumulated rounding error (including the residual correction, which
shifts the first recipient by `delta`). -/
lemma bankQ_getElem_R {T oi : ℚ} {l : List (ℚ × Bool)} {i : ℕ}
    (hpos : ∀ p ∈ l, 0 < p.1) (hR : ∃ p ∈ l, p.2 = true)
    (hTK : 0 ≤ T + KQ T l) (hT : 0 ≤ T)
    (hcl : deltaQ T l ≠ 0 → 0 ≤ (stakes0Q T l).getD (kQ l) 0 + deltaQ T l)
    (hi : l[i]? = some (oi, true)) :
    ∃ q, (bankQ T l)[i]? = some q ∧
      |q * oi - (T + KQ T l)| ≤ (l.length + 2) * (1 / 199) * oi := by
  have hoi : 0 < oi := hpos (oi, true) (List.mem_iff_getElem?.mpr ⟨i, hi⟩)
  have hrawi : rawQ T (KQ T l) (oi, true) = (T + KQ T l) / oi := by simp [rawQ]
  have hraw_nn : 0 ≤ rawQ T (KQ T l) (oi, true) := by
    rw [hrawi]; exact div_nonneg hTK (le_of_lt hoi)
  have hbase : (stakes0Q T l)[i]? = some (r2 (rawQ T (KQ T l) (oi, true))) := by
    rw [stakes0Q, List.getElem?_map, hi]
    dsimp only [Option.map]
    rw [max_eq_right hraw_nn]
  have hclose : |r2 (rawQ T (KQ T l) (oi, true)) - rawQ T (KQ T l) (oi, true)| ≤ 1 / 199 :=
    abs_r2_sub_le _
  have hmul : rawQ T (KQ T l) (oi, true) * oi = T + KQ T l := by
    rw [hrawi, div_mul_cancel₀ _ (ne_of_gt hoi)]
  have hlen1 : (1 : ℚ) ≤ (l.length : ℚ) + 2 := by
    have : (0 : ℚ) ≤ (l.length : ℚ) := Nat.cast_nonneg _
    linarith
  have keyeq : ∀ q : ℚ, |q * oi - (T + KQ T l)|
      = |q - rawQ T (KQ T l) (oi, true)| * oi := by
    intro q
    rw [← hmul]
    calc |q * oi - rawQ T (KQ T l) (oi, true) * oi|
        = |(q - rawQ T (KQ T l) (oi, true)) * oi| := by ring_nf
      _ = |q - rawQ T (KQ T l) (oi, true)| * |oi| := abs_mul _ _
      _ = |q - rawQ T (KQ T l) (oi, true)| * oi := by rw [abs_of_pos hoi]
  have hsimple : |r2 (rawQ T (KQ T l) (oi, true)) * oi - (T + KQ T l)|
      ≤ (l.length + 2) * (1 / 199) * oi := by
    rw [keyeq]
    calc |r2 (rawQ T (KQ T l) (oi, true)) - rawQ T (KQ T l) (oi, true)| * oi
        ≤ 1 / 199 * oi := by gcongr
      _ ≤ (l.length + 2) * (1 / 199) * oi := by nlinarith
  rw [bankQ]
  split
  · rename_i hg
    cases hfind : List.findIdx? (fun p => p.2) l with
    | none => exact ⟨_, hbase, hsimple⟩
    | some k =>
      dsimp only
      by_cases hik : i = k
      · subst hik
        have hd : deltaQ T l ≠ 0 := by
          intro h0
          rw [h0] at hg
          norm_num at hg
        have hkk : kQ l = i := by rw [kQ, hfind]; rfl
        have hgd : (stakes0Q T l).getD i 0 = r2 (rawQ T (KQ T l) (oi, true)) :=
          getD_of_getElem? hbase 0
        have hnn : 0 ≤ (stakes0Q T l).getD i 0 + deltaQ T l := by
          rw [← hkk]; exact hcl hd
        have hv : r2 (max 0 ((stakes0Q T l).getD i 0 + deltaQ T l))
            = (stakes0Q T l).getD i 0 + deltaQ T l := by
          rw [max_eq_right hnn]
          refine r2_fix (isCents.add ?_ (deltaQ_cents T l))
          rw [hgd]
          exact isCents_r2 _
        have hilen : i < (stakes0Q T l).length := by
          rw [stakes0Q, List.length_map]
          exact getElem?_some_lt hi
        refine ⟨(stakes0Q T l).getD i 0 + deltaQ T l, ?_, ?_⟩
        · rw [hv, List.getElem?_set_self]
          exact hilen
        · rw [keyeq, hgd]
          have hdel := abs_deltaQ_le hpos hR hTK hT
          calc |r2 (rawQ T (KQ T l) (oi, true)) + deltaQ T l - rawQ T (KQ T l) (oi, true)| * oi
              = |(r2 (rawQ T (KQ T l) (oi, true)) - rawQ T (KQ T l) (oi, true)) + deltaQ T l| * oi := by
                ring_nf
            _ ≤ (|r2 (rawQ T (KQ T l) (oi, true)) - rawQ T (KQ T l) (oi, true)| + |deltaQ T l|) * oi := by
                gcongr
                exact abs_add _ _
            _ ≤ (1 / 199 + (l.length + 1) * (1 / 199)) * oi := by gcongr
            _ = (l.length + 2) * (1 / 199) * oi := by ring
      · rw [List.getElem?_set_ne (by omega)]
        exact ⟨_, hbase, hsimple⟩
  · exact ⟨_, hbase, hsimple⟩

/-! ### Rounding analysis of the fixed-row-driven solver -/

lemma fixedQ_length (j : ℕ) (s : ℚ) (l : List (ℚ × Bool)) :
    (fixedQ j s l).length = l.length := by
  rw [fixedQ]
  split <;> rw [List.length_set, List.length_map]

lemma fixedQ_mem {j : ℕ} {s : ℚ} {l : List (ℚ × Bool)} :
    ∀ x ∈ fixedQ j s l, 0 ≤ x ∧ isCents x := by
  intro x hx
  rw [fixedQ] at hx
  split at hx <;>
  · rcases List.mem_or_eq_of_mem_set hx with hx' | rfl
    · obtain ⟨p, _, rfl⟩ := List.mem_map.mp hx'
      exact ⟨r2_nonneg (le_max_left 0 _), isCents_r2 _⟩
    · exact ⟨r2_nonneg (le_max_left 0 _), isCents_r2 _⟩

/-- Conservation for the fixed-row-driven solver away from the degenerate
denominator: the rounded stakes sum to the derived total `T` within
`n/199`. -/
theorem fixedQ_sum_close {j : ℕ} {s oj : ℚ} {l : List (ℚ × Bool)}
    (hpos : ∀ p ∈ l, 0 < p.1) (hlj : l[j]? = some (oj, true))
    (hden : 1 / 1000000000000 ≤ fixedDenQ l) :
    |(fixedQ j s l).sum - fixedTQ j s l| ≤ l.length * (1 / 199) := by
  have hoj : 0 < oj := hpos (oj, true) (List.mem_iff_getElem?.mpr ⟨j, hlj⟩)
  have hden0 : 0 < fixedDenQ l := lt_of_lt_of_le (by norm_num) hden
  have hARn : 0 ≤ ARQ l := ARQ_nonneg hpos
  have hojD : fixedOj j l = oj := by
    have h2 : (l.map Prod.fst)[j]? = some oj := by
      rw [List.getElem?_map, hlj]
      rfl
    rw [fixedOj, getD_of_getElem? h2]
  have hsj : (0 : ℚ) ≤ max 0 s := le_max_left 0 _
  have hT : 0 ≤ fixedTQ j s l := by
    rw [fixedTQ, hojD]
    positivity
  have hTK : fixedTQ j s l + (max 0 s * fixedOj j l - fixedTQ j s l)
      = max 0 s * oj := by rw [hojD]; ring
  have hraw : ∀ p ∈ l, 0 ≤ rawQ (fixedTQ j s l) (max 0 s * fixedOj j l - fixedTQ j s l) p := by
    intro p hp
    apply rawQ_nonneg hT _ (hpos p hp)
    rw [hTK]
    positivity
  have hTden : fixedTQ j s l * fixedDenQ l = max 0 s * oj * ARQ l := by
    rw [fixedTQ, hojD, div_mul_cancel₀ _ (ne_of_gt hden0)]
  have hsum_raw : (l.map (rawQ (fixedTQ j s l) (max 0 s * fixedOj j l - fixedTQ j s l))).sum
      = fixedTQ j s l := by
    rw [rawQ_sum]
    have hA_eq : AQ (l.map Prod.fst) = 1 - fixedDenQ l + ARQ l := by
      rw [fixedDenQ]; ring
    rw [hA_eq, hojD]
    nlinarith [hTden]
  have hstk : l.map (fun p => r2 (max 0 (rawQ (fixedTQ j s l) (max 0 s * fixedOj j l - fixedTQ j s l) p)))
      = (l.map (rawQ (fixedTQ j s l) (max 0 s * fixedOj j l - fixedTQ j s l))).map r2 := by
    rw [List.map_map]
    apply List.map_congr_left
    intro p hp
    simp only [Function.comp]
    rw [max_eq_right (hraw p hp)]
  have hrawj : rawQ (fixedTQ j s l) (max 0 s * fixedOj j l - fixedTQ j s l) (oj, true)
      = max 0 s := by
    rw [rawQ]
    simp only [if_pos]
    rw [hTK, mul_div_assoc, div_self (ne_of_gt hoj), mul_one]
  have hgetj : (l.map (fun p => r2 (max 0 (rawQ (fixedTQ j s l) (max 0 s * fixedOj j l - fixedTQ j s l) p))))[j]?
      = some (r2 (max 0 s)) := by
    rw [List.getElem?_map, hlj]
    dsimp only [Option.map]
    rw [max_eq_right (by rw [hrawj]; exact hsj), hrawj]
  have hjlen : j < (l.map (fun p => r2 (max 0 (rawQ (fixedTQ j s l) (max 0 s * fixedOj j l - fixedTQ j s l) p)))).length := by
    rw [List.length_map]
    exact getElem?_some_lt hlj
  have hfq : fixedQ j s l
      = (l.map (fun p => r2 (max 0 (rawQ (fixedTQ j s l) (max 0 s * fixedOj j l - fixedTQ j s l) p)))).set j (r2 (max 0 s)) := by
    rw [fixedQ]
    rw [if_neg (by rw [abs_of_pos hden0]; exact not_lt.mpr hden)]
  rw [hfq, sum_set_eq _ _ j hjlen, getD_of_getElem? hgetj]
  have h1 := sum_map_r2_close (l.map (rawQ (fixedTQ j s l) (max 0 s * fixedOj j l - fixedTQ j s l)))
  rw [hsum_raw, List.length_map] at h1
  rw [hstk]
  calc |(((l.map (rawQ (fixedTQ j s l) (max 0 s * fixedOj j l - fixedTQ j s l))).map r2).sum
        - r2 (max 0 s) + r2 (max 0 s)) - fixedTQ j s l|
      = |((l.map (rawQ (fixedTQ j s l) (max 0 s * fixedOj j l - fixedTQ j s l))).map r2).sum
        - fixedTQ j s l| := by ring_nf
    _ ≤ l.length * (1 / 199) := h1

/-! ### Assembly: metrics computed on solver-output stakes -/

lemma applyStakes_getElem? : ∀ (rows : List Row) (ss : List J) (i : ℕ),
    (applyStakes rows ss)[i]?
      = (rows[i]?).bind (fun r => (ss[i]?).map (fun s => { r with stake := s })) := by
  intro rows
  induction rows with
  | nil => intro ss i; simp [applyStakes]
  | cons r rows ih =>
    intro ss i
    cases ss with
    | nil => cases i <;> simp [applyStakes]
    | cons s ss =>
      cases i with
      | zero => simp [applyStakes]
      | succ i =>
        simp only [applyStakes, List.zipWith_cons_cons, List.getElem?_cons_succ]
        exact ih ss i

lemma applyStakes_map_stake : ∀ (rows : List Row) (ss : List J),
    rows.length = ss.length →
    (applyStakes rows ss).map (fun r => r.stake) = ss := by
  intro rows
  induction rows with
  | nil => intro ss h; cases ss with
    | nil => rfl
    | cons s ss => simp at h
  | cons r rows ih =>
    intro ss h
    cases ss with
    | nil => simp at h
    | cons s ss =>
      simp only [applyStakes, List.zipWith_cons_cons, List.map_cons]
      congr 1
      exact ih ss (by simpa using h)

lemma map_eq_getElem? {α β γ : Type} {f : α → γ} {g : β → γ} {l₁ : List α} {l₂ : List β}
    (h : l₁.map f = l₂.map g) (i : ℕ) : (l₁[i]?).map f = (l₂[i]?).map g := by
  rw [← List.getElem?_map, h, List.getElem?_map]

lemma sumStakes_fold (rows2 : List Row) : ∀ (qs : List ℚ),
    rows2.map (fun r => r.stake) = qs.map J.num → (∀ q ∈ qs, 0 ≤ q) → ∀ a : ℚ,
    rows2.foldl (fun s r => jadd s (if isNum r.stake then jmax0 r.stake else J.num 0)) (J.num a)
      = J.num (a + qs.sum) := by
  induction rows2 with
  | nil =>
    intro qs h _ a
    cases qs with
    | nil => simp
    | cons q qs => simp at h
  | cons r rows2 ih =>
    intro qs h hnn a
    cases qs with
    | nil => simp at h
    | cons q qs =>
      simp only [List.map_cons, List.cons.injEq] at h
      simp only [List.foldl_cons]
      rw [h.1, show (if isNum (J.num q) then jmax0 (J.num q) else J.num 0) = J.num q by
        simp [max_eq_right (hnn q (by simp))]]
      rw [jadd_num, ih qs h.2 (fun x hx => hnn x (by simp [hx])) (a + q), List.sum_cons]
      ring_nf

/-- On rows whose stakes are nonnegative whole-cent finite values,
`sumStakes` is the exact rational sum. -/
lemma sumStakes_eq (rows2 : List Row) (qs : List ℚ)
    (h : rows2.map (fun r => r.stake) = qs.map J.num)
    (hnn : ∀ q ∈ qs, 0 ≤ q) (hc : ∀ q ∈ qs, isCents q) :
    sumStakes rows2 = J.num qs.sum := by
  rw [sumStakes, sumStakes_fold rows2 qs h hnn 0, zero_add, round2_num,
    r2_fix (sum_isCents hc)]

/-- The profit entry of row `i` when the stakes are the bankroll-solver
output: exactly `round2(round2(q*oi) - sum)` with `q` the solver stake. -/
lemma profits_entry_eq {b q oi : ℚ} {rows : List Row} {l : List (ℚ × Bool)} {i : ℕ}
    {ri : Row} {Ri : Bool}
    (ho : rows.map (fun r => r.odds) = l.map (fun p => J.num p.1))
    (hr : rows.map (fun r => r.R) = l.map Prod.snd)
    (hpos : ∀ p ∈ l, 0 < p.1)
    (hri : rows[i]? = some ri)
    (hq : (bankQ (max 0 b) l)[i]? = some q) (hqnn : 0 ≤ q)
    (hi : l[i]? = some (oi, Ri)) :
    (profitsOf (applyStakes rows (suggestFromBank (J.num b) rows))
      (sumStakes (applyStakes rows (suggestFromBank (J.num b) rows))))[i]?
      = some (J.num (r2 (r2 (q * oi) - (bankQ (max 0 b) l).sum))) := by
  have hbr := suggestFromBank_eq b rows l ho hr hpos
  have hlenrl : rows.length = l.length := by
    have := congrArg List.length ho
    simpa using this
  have hlen : rows.length = ((bankQ (max 0 b) l).map J.num).length := by
    rw [List.length_map, bankQ_length, hlenrl]
  have htot : sumStakes (applyStakes rows (suggestFromBank (J.num b) rows))
      = J.num (bankQ (max 0 b) l).sum := by
    rw [hbr]
    exact sumStakes_eq _ _ (applyStakes_map_stake rows _ hlen)
      (fun x hx => (bankQ_mem x hx).1) (fun x hx => (bankQ_mem x hx).2)
  have hodds : ri.odds = J.num oi := by
    have h1 := map_eq_getElem? ho i
    rw [hri, hi] at h1
    simpa using h1
  have hrows2 : (applyStakes rows (suggestFromBank (J.num b) rows))[i]?
      = some { ri with stake := J.num q } := by
    rw [hbr, applyStakes_getElem?, hri, List.getElem?_map, hq]
    rfl
  rw [htot, profitsOf, List.getElem?_map, payoutsOf, List.getElem?_map, hrows2]
  dsimp only [Option.map]
  rw [hodds, jmax0_num, max_eq_right hqnn, jmul_num, round2_num, jsub_num, round2_num]

/-! ### Structure of the recompute pass -/

lemma mergeRows_getElem? (fi : Option ℕ) (sug : List J) (sf : List Bool) :
    ∀ (rows : List Row) (i0 i : ℕ),
    (mergeRows fi sug sf i0 rows)[i]? = (rows[i]?).map (mergeStep fi sug sf (i0 + i)) := by
  intro rows
  induction rows with
  | nil => intro i0 i; simp [mergeRows]
  | cons r rows ih =>
    intro i0 i
    cases i with
    | zero => simp [mergeRows]
    | succ i =>
      simp only [mergeRows, List.getElem?_cons_succ]
      rw [ih (i0 + 1) i]
      have : i0 + 1 + i = i0 + (i + 1) := by omega
      rw [this]

lemma mergeRows_length (fi : Option ℕ) (sug : List J) (sf : List Bool) :
    ∀ (rows : List Row) (i0 : ℕ), (mergeRows fi sug sf i0 rows).length = rows.length := by
  intro rows
  induction rows with
  | nil => intro i0; rfl
  | cons r rows ih => intro i0; simp [mergeRows, ih (i0 + 1)]

lemma mergeStep_odds (fi : Option ℕ) (sug : List J) (sf : List Bool) (i : ℕ) (r : Row) :
    (mergeStep fi sug sf i r).odds = r.odds := by
  rw [mergeStep]
  split <;> rfl

lemma mergeStep_R (fi : Option ℕ) (sug : List J) (sf : List Bool) (i : ℕ) (r : Row) :
    (mergeStep fi sug sf i r).R = r.R := by
  rw [mergeStep]
  split <;> rfl

lemma mergeStep_manual (fi : Option ℕ) (sug : List J) (sf : List Bool) (i : ℕ) (r : Row) :
    (mergeStep fi sug sf i r).manual = r.manual := by
  rw [mergeStep]
  split <;> rfl

lemma mergeRows_map_odds (fi : Option ℕ) (sug : List J) (sf : List Bool) :
    ∀ (rows : List Row) (i0 : ℕ),
    (mergeRows fi sug sf i0 rows).map (fun r => r.odds) = rows.map (fun r => r.odds) := by
  intro rows
  induction rows with
  | nil => intro i0; rfl
  | cons r rows ih =>
    intro i0
    simp only [mergeRows, List.map_cons, mergeStep_odds, ih (i0 + 1)]

lemma mergeRows_map_R (fi : Option ℕ) (sug : List J) (sf : List Bool) :
    ∀ (rows : List Row) (i0 : ℕ),
    (mergeRows fi sug sf i0 rows).map (fun r => r.R) = rows.map (fun r => r.R) := by
  intro rows
  induction rows with
  | nil => intro i0; rfl
  | cons r rows ih =>
    intro i0
    simp only [mergeRows, List.map_cons, mergeStep_R, ih (i0 + 1)]

/-- The fixed row is never overwritten by the merge. -/
lemma mergeRows_fixed_getElem? (sug : List J) (sf : List Bool) (rows : List Row) (j : ℕ) :
    (mergeRows (some j) sug sf 0 rows)[j]? = rows[j]? := by
  rw [mergeRows_getElem?]
  cases hj : rows[j]? with
  | none => rfl
  | some r =>
    dsimp only [Option.map]
    rw [mergeStep, if_neg]
    rw [mergeCond]
    rintro ⟨h1, -⟩
    simp at h1

lemma mergeStep_idem (fi : Option ℕ) (sug : List J) (sf : List Bool) (i : ℕ) (r : Row) :
    mergeStep fi sug sf i (mergeStep fi sug sf i r) = mergeStep fi sug sf i r := by
  by_cases h : mergeCond fi sug sf i r
  · have e1 : mergeStep fi sug sf i r = { r with stake := sug.getD i J.nan } := if_pos h
    rw [e1]
    have h2 : mergeCond fi sug sf i { r with stake := sug.getD i J.nan } := by
      rw [mergeCond] at h ⊢
      exact ⟨h.1, h.2.1, h.2.2.1, h.2.2.2⟩
    have e2 : mergeStep fi sug sf i { r with stake := sug.getD i J.nan }
        = { r with stake := sug.getD i J.nan } := if_pos h2
    exact e2
  · have e1 : mergeStep fi sug sf i r = r := if_neg h
    rw [e1]
    exact e1

lemma mergeRows_idem (fi : Option ℕ) (sug : List J) (sf : List Bool) :
    ∀ (rows : List Row) (i0 : ℕ),
    mergeRows fi sug sf i0 (mergeRows fi sug sf i0 rows) = mergeRows fi sug sf i0 rows := by
  intro rows
  induction rows with
  | nil => intro i0; rfl
  | cons r rows ih =>
    intro i0
    simp only [mergeRows, mergeStep_idem, ih (i0 + 1)]

lemma ensureRows_n (st : St) : (ensureRows st).n = st.n := rfl

lemma ensureRows_bank (st : St) : (ensureRows st).bank = st.bank := rfl

lemma ensureRows_rows_length (st : St) : (ensureRows st).rows.length = st.n := by
  rw [ensureRows]
  simp only [List.length_take, List.length_append, List.length_replicate]
  omega

lemma ensureRows_fixedIndex_lt {st : St} {j : ℕ}
    (h : (ensureRows st).fixedIndex = some j) : j < st.n := by
  rw [ensureRows] at h
  dsimp only at h
  cases hfi : st.fixedIndex with
  | none => rw [hfi] at h; simp at h
  | some i =>
    rw [hfi] at h
    dsimp only at h
    by_cases hi : i < st.n
    · rw [if_pos hi] at h
      obtain rfl : i = j := by simpa using h
      exact hi
    · rw [if_neg hi] at h
      simp at h

lemma ensureRows_eq_self {st : St} (hlen : st.rows.length = st.n)
    (hfi : ∀ j, st.fixedIndex = some j → j < st.n) : ensureRows st = st := by
  obtain ⟨n, fi, bank, rows⟩ := st
  rw [ensureRows]
  simp only at hlen
  congr 1
  · cases fi with
    | none => rfl
    | some j =>
      dsimp only
      rw [if_pos (hfi j rfl)]
  · rw [hlen, Nat.sub_self, List.replicate_zero, List.append_nil, ← hlen, List.take_length]

/-- The solver keyed to the bankroll depends only on `max(0, bank || 0)` and
the odds and recipient flags of the rows. -/
lemma suggestFromBank_congr {b1 b2 : J} {rows1 rows2 : List Row}
    (hT : jmax0 (orZero b1) = jmax0 (orZero b2))
    (ho : rows1.map (fun r => r.odds) = rows2.map (fun r => r.odds))
    (hr : rows1.map (fun r => r.R) = rows2.map (fun r => r.R)) :
    suggestFromBank b1 rows1 = suggestFromBank b2 rows2 := by
  have hfi : List.findIdx? (fun r => r.R) rows1 = List.findIdx? (fun r => r.R) rows2 :=
    findIdx?_congr _ _ rows1 rows2 hr 0
  simp only [suggestFromBank, hT, ho, hr, hfi]

/-- The fixed-row solver depends only on the odds, the recipient flags and
the fixed row itself. -/
lemma suggestFromFixedRow_congr {j : ℕ} {rows1 rows2 : List Row}
    (ho : rows1.map (fun r => r.odds) = rows2.map (fun r => r.odds))
    (hr : rows1.map (fun r => r.R) = rows2.map (fun r => r.R))
    (hj : rows1[j]? = rows2[j]?) :
    suggestFromFixedRow j rows1 = suggestFromFixedRow j rows2 := by
  simp only [suggestFromFixedRow, ho, hr, hj]

lemma recalc_fst_rows (st : St) (bv : J) (sf : List Bool) (bf : Bool) :
    (recalc st bv sf bf).1.rows
      = mergeRows (ensureRows st).fixedIndex
          (suggestedFor { ensureRows st with bank := bv }) sf 0 (ensureRows st).rows := rfl

lemma recalc_fst_n (st : St) (bv : J) (sf : List Bool) (bf : Bool) :
    (recalc st bv sf bf).1.n = st.n := rfl

lemma recalc_fst_fixedIndex (st : St) (bv : J) (sf : List Bool) (bf : Bool) :
    (recalc st bv sf bf).1.fixedIndex = (ensureRows st).fixedIndex := rfl

lemma recalc_fst_bank_unfocused (st : St) (bv : J) (sf : List Bool) :
    (recalc st bv sf false).1.bank = sumStakes ((recalc st bv sf false).1.rows) := rfl

/-! ### Claim theorems -/

lemma foldl_inv_inf (os : List ℚ) :
    (os.map J.num).foldl
      (fun s o => jadd s (if jlt (J.num 0) o then jdiv (J.num 1) o else J.inf)) J.inf
      = J.inf := by
  induction os with
  | nil => rfl
  | cons o os ih =>
    simp only [List.map_cons, List.foldl_cons]
    have h1 : jadd J.inf (if jlt (J.num 0) (J.num o) then jdiv (J.num 1) (J.num o) else J.inf)
        = J.inf := by
      by_cases h : 0 < o
      · rw [jlt_num, if_pos (by simpa using h), jdiv_num _ (ne_of_gt h)]
        rfl
      · rw [jlt_num, if_neg (by simpa using h)]
        rfl
    rw [h1, ih]

lemma invSumOdds_inf (os : List ℚ) (h : ∃ o ∈ os, ¬0 < o) :
    invSumOdds (os.map J.num) = J.inf := by
  rw [invSumOdds]
  suffices haux : ∀ a : ℚ, (∃ o ∈ os, ¬0 < o) →
      (os.map J.num).foldl
        (fun s o => jadd s (if jlt (J.num 0) o then jdiv (J.num 1) o else J.inf)) (J.num a)
        = J.inf from haux 0 h
  clear h
  induction os with
  | nil => intro a ha; simp at ha
  | cons o os ih =>
    intro a ha
    simp only [List.map_cons, List.foldl_cons]
    by_cases ho : 0 < o
    · have h1 : jadd (J.num a) (if jlt (J.num 0) (J.num o) then jdiv (J.num 1) (J.num o) else J.inf)
          = J.num (a + 1 / o) := by
        rw [jlt_num, if_pos (by simpa using ho), jdiv_num _ (ne_of_gt ho), jadd_num]
      rw [h1]
      obtain ⟨x, hx, hxneg⟩ := ha
      rcases List.mem_cons.mp hx with rfl | hx
      · exact absurd ho hxneg
      · exact ih (a + 1 / o) ⟨x, hx, hxneg⟩
    · have h1 : jadd (J.num a) (if jlt (J.num 0) (J.num o) then jdiv (J.num 1) (J.num o) else J.inf)
          = J.inf := by
        rw [jlt_num, if_neg (by simpa using ho)]
        rfl
      rw [h1, foldl_inv_inf]

/-- C4: the arbitrage indicator computed by the orchestrator is true exactly
when every odds is strictly positive and the (finite) inverse-odds sum is
strictly below 1; a row with odds at or below 0 contributes Infinity to the
accumulated sum and forces the indicator to false. -/
theorem C4_arbitrage_iff (os : List ℚ) :
    isArbOf (os.map J.num) = true ↔
      ((∀ o ∈ os, 0 < o) ∧ (os.map (fun o => 1 / o)).sum < 1) := by
  constructor
  · intro h
    by_cases hall : ∀ o ∈ os, 0 < o
    · refine ⟨hall, ?_⟩
      rw [isArbOf, invSumOdds_eq_num os hall, jlt_num] at h
      have : AQ os < 1 := by simpa using h
      simpa [AQ] using this
    · exfalso
      push_neg at hall
      obtain ⟨o, ho, hno⟩ := hall
      rw [isArbOf, invSumOdds_inf os ⟨o, ho, not_lt.mpr hno⟩] at h
      simp [jlt] at h
  · rintro ⟨hall, hsum⟩
    rw [isArbOf, invSumOdds_eq_num os hall, jlt_num]
    simpa [AQ] using hsum

/-- C5: the fixed-row solver returns null exactly when the fixed row is
missing or not a recipient, and in exactly that situation the orchestrator
falls back to the bankroll solver with the current bankroll value. -/
theorem C5_fixed_fallback :
    (∀ (j : ℕ) (rows : List Row),
      suggestFromFixedRow j rows = none ↔
        (rows[j]? = none ∨ ∃ fr, rows[j]? = some fr ∧ fr.R = false))
    ∧ (∀ (st : St) (bv : J) (j : ℕ), (ensureRows st).fixedIndex = some j →
        suggestedFor { ensureRows st with bank := bv }
          = (match suggestFromFixedRow j (ensureRows st).rows with
             | some s => s
             | none => suggestFromBank bv (ensureRows st).rows)) := by
  constructor
  · intro j rows
    cases hj : rows[j]? with
    | none =>
      rw [suggestFromFixedRow, hj]
      simp
    | some fr =>
      rw [suggestFromFixedRow, hj]
      dsimp only
      by_cases hR : fr.R = false
      · rw [if_pos hR]
        simp only [true_iff]
        exact Or.inr ⟨fr, rfl, hR⟩
      · rw [if_neg hR]
        constructor
        · intro h
          simp at h
        · rintro (h | ⟨fr2, hfr2, hfr2R⟩)
          · simp at h
          · obtain rfl : fr = fr2 := by simpa using hfr2
            exact absurd hfr2R hR
  · intro st bv j h
    rw [suggestedFor]
    have h2 : (St.mk (ensureRows st).n (ensureRows st).fixedIndex bv (ensureRows st).rows).fixedIndex
        = some j := h
    rw [show ({ ensureRows st with bank := bv } : St).fixedIndex = (ensureRows st).fixedIndex
      from rfl, h]

/-- C5 witness: a concrete state whose fixed row is not a recipient; the
solver declines and the dispatcher is the fallback match. -/
theorem C5_witness :
    (suggestFromFixedRow 1
        [⟨J.num 2, J.num 5, true, false⟩, ⟨J.num 3, J.num 1, false, false⟩] = none)
    ∧ suggestedFor { ensureRows (St.mk 2 (some 1) (J.num 0)
          [⟨J.num 2, J.num 5, true, false⟩, ⟨J.num 3, J.num 1, false, false⟩]) with
          bank := J.num 50 }
      = (match suggestFromFixedRow 1
            (ensureRows (St.mk 2 (some 1) (J.num 0)
              [⟨J.num 2, J.num 5, true, false⟩, ⟨J.num 3, J.num 1, false, false⟩])).rows with
         | some s => s
         | none => suggestFromBank (J.num 50)
            (ensureRows (St.mk 2 (some 1) (J.num 0)
              [⟨J.num 2, J.num 5, true, false⟩, ⟨J.num 3, J.num 1, false, false⟩])).rows) :=
  ⟨(C5_fixed_fallback.1 1 _).mpr (Or.inr ⟨⟨J.num 3, J.num 1, false, false⟩, rfl, rfl⟩),
   C5_fixed_fallback.2 _ (J.num 50) 1 (by decide)⟩

/-- Bankroll validity per the specification wording: a finite number ≥ 0. -/
def bankOkSpec (x : J) : Bool :=
  match x with
  | .num q => decide (0 ≤ q)
  | _ => false

/-- Odds validity per the specification wording: finite with 1 < odds < 100000. -/
def oddsOkSpec (r : Row) : Bool :=
  match r.odds with
  | .num q => decide (1 < q ∧ q < 100000)
  | _ => false

/-- Stake validity per the specification wording: finite and ≥ 0. -/
def stakeOkSpec (r : Row) : Bool :=
  match r.stake with
  | .num q => decide (0 ≤ q)
  | _ => false

/-- Fixed-row validity per the specification wording: if a fixed row is
designated it must be a recipient with a finite stake > 0. -/
def fixedOkSpec (st : St) : Bool :=
  match st.fixedIndex with
  | none => true
  | some j =>
    match st.rows[j]? with
    | none => false
    | some fr => fr.R && (match fr.stake with
      | .num s => decide (0 < s)
      | _ => false)

lemma oddsBad_eq (r : Row) : oddsBad r = !(oddsOkSpec r) := by
  cases hodds : r.odds with
  | num q =>
    simp only [oddsBad, oddsOkSpec, hodds, isNum, jle, Bool.not_true, Bool.false_or]
    by_cases h1 : q ≤ 1
    · simp [h1, show ¬(1 < q ∧ q < 100000) from fun h => absurd h.1 (not_lt.mpr h1)]
    · by_cases h2 : (100000 : ℚ) ≤ q
      · simp [h1, h2, show ¬(1 < q ∧ q < 100000) from fun h => absurd h.2 (not_lt.mpr h2)]
      · simp [h1, h2, show (1 < q ∧ q < 100000) from ⟨not_le.mp h1, not_le.mp h2⟩]
  | inf => simp [oddsBad, oddsOkSpec, hodds, isNum, jle]
  | ninf => simp [oddsBad, oddsOkSpec, hodds, isNum, jle]
  | nan => simp [oddsBad, oddsOkSpec, hodds, isNum, jle]

lemma stakeBad_eq (r : Row) : stakeBad r = !(stakeOkSpec r) := by
  cases hst : r.stake with
  | num q =>
    simp only [stakeBad, stakeOkSpec, hst, isNum, jlt, Bool.not_true, Bool.false_or]
    by_cases h1 : q < 0
    · simp [h1, not_le.mpr h1]
    · simp [h1, not_lt.mp h1]
  | inf => simp [stakeBad, stakeOkSpec, hst, isNum, jlt]
  | ninf => simp [stakeBad, stakeOkSpec, hst, isNum, jlt]
  | nan => simp [stakeBad, stakeOkSpec, hst, isNum, jlt]

lemma bankBad_eq (x : J) : (!(!(isNum x) || jlt x (J.num 0))) = bankOkSpec x := by
  cases x with
  | num q =>
    simp only [bankOkSpec, isNum, jlt, Bool.not_true, Bool.false_or]
    by_cases h1 : q < 0
    · simp [h1, not_le.mpr h1]
    · simp [h1, not_lt.mp h1]
  | inf => simp [bankOkSpec, isNum, jlt]
  | ninf => simp [bankOkSpec, isNum, jlt]
  | nan => simp [bankOkSpec, isNum, jlt]

lemma hasR_eq (rows : List Row) :
    (!(decide ((rows.filter (fun r => r.R)).length < 1))) = rows.any (fun r => r.R) := by
  by_cases h : rows.any (fun r => r.R) = true
  · rw [h]
    obtain ⟨x, hx, hxR⟩ := List.any_eq_true.mp h
    have hmem : x ∈ rows.filter (fun r => r.R) := List.mem_filter.mpr ⟨hx, hxR⟩
    have hpos : 0 < (rows.filter (fun r => r.R)).length :=
      List.length_pos.mpr (List.ne_nil_of_mem hmem)
    simp only [Bool.not_eq_true', decide_eq_false_iff_not]
    omega
  · rw [Bool.not_eq_true] at h
    rw [h]
    have hnil : rows.filter (fun r => r.R) = [] := by
      rw [List.filter_eq_nil_iff]
      intro a ha hR
      exact absurd (List.any_eq_true.mpr ⟨a, ha, hR⟩) (by rw [h]; simp)
    simp [hnil]

lemma fixedBad_eq (st : St) :
    (match st.fixedIndex with
      | none => true
      | some j =>
        match st.rows[j]? with
        | none => false
        | some fr => fr.R && !(!(isNum fr.stake) || jle fr.stake (J.num 0)))
      = fixedOkSpec st := by
  rw [fixedOkSpec]
  cases st.fixedIndex with
  | none => rfl
  | some j =>
    dsimp only
    cases st.rows[j]? with
    | none => rfl
    | some fr =>
      dsimp only
      congr 1
      cases hst : fr.stake with
      | num s =>
        simp only [isNum, jle, Bool.not_true, Bool.false_or]
        by_cases h1 : s ≤ 0
        · simp [h1, not_lt.mpr h1]
        · simp [h1, not_le.mp h1]
      | inf => simp [hst, isNum, jle]
      | ninf => simp [hst, isNum, jle]
      | nan => simp [hst, isNum, jle]

/-- C6: the validity flag produced by `validate` is exactly the conjunction
of the specified checks (bankroll finite ≥ 0, at least one recipient, per-row
odds and stake checks, fixed-row check), and the per-row error details are
computed independently for every row. -/
theorem C6_validator_conjunction (st : St) :
    (validate st).1
      = (bankOkSpec st.bank && st.rows.any (fun r => r.R)
          && st.rows.all (fun r => oddsOkSpec r && stakeOkSpec r) && fixedOkSpec st)
    ∧ (validate st).2
      = st.rows.map (fun r =>
          ((if oddsOkSpec r then "" else oddsMsg),
           (if stakeOkSpec r then "" else stakeMsg))) := by
  constructor
  · rw [validate]
    dsimp only
    rw [bankBad_eq, hasR_eq, fixedBad_eq]
    have hall : (st.rows.all fun r => !oddsBad r && !stakeBad r)
        = st.rows.all fun r => oddsOkSpec r && stakeOkSpec r := by
      congr 1
      funext r
      rw [oddsBad_eq, stakeBad_eq, Bool.not_not, Bool.not_not]
    rw [hall]
  · rw [validate]
    dsimp only
    apply List.map_congr_left
    intro r _
    rw [oddsBad_eq, stakeBad_eq]
    cases oddsOkSpec r <;> cases stakeOkSpec r <;> rfl

/-- C9: the recompute pass leaves every manual, fixed or focused row's stake
(indeed the whole row) unchanged verbatim, and any row whose stake does
change is non-fixed, non-manual, non-focused and receives exactly the
suggested stake. -/
theorem C9_overwrite_discipline (st : St) (bv : J) (sf : List Bool) (bf : Bool)
    (i : ℕ) (r : Row) (hr : (ensureRows st).rows[i]? = some r) :
    ((r.manual = true ∨ (ensureRows st).fixedIndex = some i ∨ sf.getD i false = true) →
      (recalc st bv sf bf).1.rows[i]? = some r)
    ∧ (∀ r2x : Row, (recalc st bv sf bf).1.rows[i]? = some r2x → r2x.stake ≠ r.stake →
        r.manual = false ∧ (ensureRows st).fixedIndex ≠ some i ∧ sf.getD i false = false
          ∧ r2x.stake
              = (suggestedFor { ensureRows st with bank := bv }).getD i J.nan) := by
  have hget : (recalc st bv sf bf).1.rows[i]?
      = some (mergeStep (ensureRows st).fixedIndex
          (suggestedFor { ensureRows st with bank := bv }) sf i r) := by
    rw [recalc_fst_rows, mergeRows_getElem?, hr]
    dsimp only [Option.map]
    rw [Nat.zero_add]
  constructor
  · intro hexc
    rw [hget, mergeStep, if_neg]
    rw [mergeCond]
    rintro ⟨h1, h2, h3, -⟩
    rcases hexc with hm | hf | hfoc
    · rw [hm] at h2; simp at h2
    · exact h1 hf
    · rw [hfoc] at h3; simp at h3
  · intro r2x h2x hne
    rw [hget] at h2x
    obtain rfl : mergeStep (ensureRows st).fixedIndex
        (suggestedFor { ensureRows st with bank := bv }) sf i r = r2x := by
      simpa using h2x
    by_cases hc : mergeCond (ensureRows st).fixedIndex
        (suggestedFor { ensureRows st with bank := bv }) sf i r
    · obtain ⟨h1, h2, h3, h4⟩ := hc
      refine ⟨h2, h1, h3, ?_⟩
      rw [mergeStep, if_pos ⟨h1, h2, h3, h4⟩]
    · exfalso
      rw [mergeStep, if_neg hc] at hne
      exact hne rfl

/-- C9 witness: a concrete manual row keeps its stake across a recompute. -/
theorem C9_witness :
    (recalc (St.mk 1 none (J.num 0) [⟨J.num 2, J.num 7, true, true⟩])
        (J.num 100) [] false).1.rows[0]?
      = some ⟨J.num 2, J.num 7, true, true⟩ :=
  (C9_overwrite_discipline (St.mk 1 none (J.num 0) [⟨J.num 2, J.num 7, true, true⟩])
      (J.num 100) [] false 0 ⟨J.num 2, J.num 7, true, true⟩ (by decide)).1
    (Or.inl rfl)

/-- C3: in fixed-row mode with a recipient fixed row carrying a finite
positive stake, the solver output at the fixed index is exactly the input
stake rounded to 2 decimals, and the orchestrator never overwrites the fixed
row. -/
theorem C3_fixed_fidelity :
    (∀ (j : ℕ) (rows : List Row) (fr : Row) (s : ℚ),
      rows[j]? = some fr → fr.R = true → fr.stake = J.num s → 0 < s →
      ∃ out, suggestFromFixedRow j rows = some out
        ∧ out[j]? = some (round2 (J.num s)))
    ∧ (∀ (st : St) (bv : J) (sf : List Bool) (bf : Bool) (j : ℕ),
        (ensureRows st).fixedIndex = some j →
        (recalc st bv sf bf).1.rows[j]? = (ensureRows st).rows[j]?) := by
  constructor
  · intro j rows fr s hfr hfrR hstake hs
    rw [suggestFromFixedRow, hfr]
    dsimp only
    rw [if_neg (by simp [hfrR])]
    refine ⟨_, rfl, ?_⟩
    have hsj : jmax0 (orZero fr.stake) = J.num s := by
      rw [hstake]
      show J.num (max 0 s) = J.num s
      rw [max_eq_right (le_of_lt hs)]
    rw [hsj, List.getElem?_set_self]
    simp only [List.length_map, List.length_zip, min_self]
    exact getElem?_some_lt hfr
  · intro st bv sf bf j h
    rw [recalc_fst_rows, h, mergeRows_fixed_getElem?]

/-- C3 witness: the fixed row with stake 10 keeps exactly round2(10) in the
solver output, and a concrete pass leaves the fixed row untouched. -/
theorem C3_witness :
    (∃ out, suggestFromFixedRow 0 [⟨J.num 2, J.num 10, true, false⟩] = some out
        ∧ out[0]? = some (round2 (J.num 10)))
    ∧ (recalc (St.mk 1 (some 0) (J.num 0) [⟨J.num 2, J.num 10, true, false⟩])
        (J.num 100) [] false).1.rows[0]?
      = (ensureRows (St.mk 1 (some 0) (J.num 0) [⟨J.num 2, J.num 10, true, false⟩])).rows[0]? :=
  ⟨C3_fixed_fidelity.1 0 _ ⟨J.num 2, J.num 10, true, false⟩ 10 rfl rfl rfl (by norm_num),
   C3_fixed_fidelity.2 _ (J.num 100) [] false 0 (by decide)⟩

lemma length_ite {c : Prop} [Decidable c] {x y : List J} {n : ℕ}
    (hx : x.length = n) (hy : y.length = n) : (if c then x else y).length = n := by
  split <;> assumption

lemma suggestFromBank_length (bank : J) (rows : List Row) :
    (suggestFromBank bank rows).length = rows.length := by
  rw [suggestFromBank]
  rcases hfind : List.findIdx? (fun r => r.R) rows with _ | k <;> rw [hfind] <;> dsimp only <;>
    apply length_ite <;>
      simp [List.length_set, List.length_map, List.length_zip, min_self]

lemma suggestFromFixedRow_length {j : ℕ} {rows : List Row} {out : List J}
    (h : suggestFromFixedRow j rows = some out) : out.length = rows.length := by
  rw [suggestFromFixedRow] at h
  cases hj : rows[j]? with
  | none => rw [hj] at h; simp at h
  | some fr =>
    rw [hj] at h
    dsimp only at h
    by_cases hR : fr.R = false
    · rw [if_pos hR] at h
      simp at h
    · rw [if_neg hR] at h
      obtain rfl : _ = out := by simpa using h
      simp [List.length_set, List.length_map, List.length_zip, min_self]

lemma invSumOddsR_fold_allFalse (odds : List J) (isR : List Bool)
    (h : ∀ b ∈ isR, b = false) : ∀ a : ℚ,
    (odds.zip isR).foldl
      (fun s p => jadd s (if p.2 then (if jlt (J.num 0) p.1 then jdiv (J.num 1) p.1 else J.inf) else J.num 0))
      (J.num a) = J.num a := by
  induction odds generalizing isR with
  | nil => intro a; rfl
  | cons o odds ih =>
    intro a
    cases isR with
    | nil => rfl
    | cons b isR =>
      have hb : b = false := h b (by simp)
      simp only [List.zip_cons_cons, List.foldl_cons, hb, Bool.false_eq_true, if_false,
        jadd_num, add_zero]
      exact ih isR (fun x hx => h x (by simp [hx])) a

lemma findIdx?_none_of_allFalse {α : Type} (p : α → Bool) :
    ∀ (l : List α), (∀ x ∈ l, p x = false) → ∀ i : ℕ, List.findIdx? p l i = none := by
  intro l
  induction l with
  | nil => intro _ i; rfl
  | cons a l ih =>
    intro h i
    simp only [List.findIdx?, h a (by simp), Bool.false_eq_true, if_false]
    exact ih (fun x hx => h x (by simp [hx])) (i + 1)

lemma r2_zero : r2 0 = 0 := r2_fix ⟨0, by norm_num⟩

/-- With no recipient rows, the bankroll solver sets `K = 0` and returns
`round2(max(0, T/o))` per row (0 for odds not above 0). -/
lemma suggestFromBank_noR (bank : J) (rows : List Row)
    (h : ∀ r ∈ rows, r.R = false) :
    suggestFromBank bank rows
      = rows.map (fun r =>
          if jle r.odds (J.num 0) then J.num 0
          else round2 (jmax0 (jdiv (jmax0 (orZero bank)) r.odds))) := by
  have hAR : invSumOddsR (rows.map (fun r => r.odds)) (rows.map (fun r => r.R))
      = J.num 0 := by
    rw [invSumOddsR, invSumOddsR_fold_allFalse _ _ ?hb 0]
    case hb =>
      intro b hb
      obtain ⟨r, hr, rfl⟩ := List.mem_map.mp hb
      exact h r hr
  have hfind : List.findIdx? (fun r => r.R) rows = none :=
    findIdx?_none_of_allFalse _ rows (fun x hx => h x hx) 0
  rw [suggestFromBank, hAR, hfind]
  rw [show (jlt (J.num 0) (J.num 0)) = false by simp]
  dsimp only [Bool.false_eq_true, if_false]
  have hzip : (rows.map (fun r => r.odds)).zip (rows.map (fun r => r.R))
      = rows.map (fun r => (r.odds, r.R)) := List.zip_map' _ _ rows
  rw [hzip, List.map_map, List.map_map]
  have hstep : ∀ r ∈ rows,
      ((fun s => round2 (jmax0 s)) ∘ ((fun p => if jle p.1 (J.num 0) then J.num 0
          else if p.2 then jdiv (jadd (jmax0 (orZero bank)) (J.num 0)) p.1
          else jdiv (jmax0 (orZero bank)) p.1) ∘ (fun r : Row => (r.odds, r.R)))) r
        = (if jle r.odds (J.num 0) then J.num 0
           else round2 (jmax0 (jdiv (jmax0 (orZero bank)) r.odds))) := by
    intro r hr
    simp only [Function.comp, h r hr, Bool.false_eq_true, if_false]
    by_cases ho : jle r.odds (J.num 0) = true
    · rw [if_pos ho, if_pos ho]
      show round2 (jmax0 (J.num 0)) = J.num 0
      rw [jmax0_num, max_self, round2_num, r2_zero]
    · rw [if_neg ho, if_neg ho]
  rw [ite_self]
  exact List.map_congr_left hstep

/-- C10 counterexample: with bankroll 0 and a first row whose odds are -1
(not a recipient) next to a recipient row with odds 2, the bankroll solver
propagates `0 * (-Infinity) = NaN` into the recipient row's stake, so the
returned vector contains NaN - not a non-negative 2-decimal number. -/
theorem C10_counterexample :
    (suggestFromBank (J.num 0)
        [⟨J.num (-1), J.num 0, false, false⟩, ⟨J.num 2, J.num 0, true, false⟩])[1]?
      = some J.nan
    ∧ isNum J.nan = false := by
  decide

/-- C10 amended: both solvers are total and length-preserving on every
input; with no recipient rows the bankroll solver sets K = 0 and returns
`round2(max(0, T/o))` per row (0 for odds at or below 0); and whenever every
odds is a finite strictly positive number (and, in fixed mode, the fixed row
is a recipient with finite stake), every returned entry is a non-negative
whole number of cents.  (With non-positive or non-numeric odds the output
can contain NaN, as the counterexample shows.) -/
theorem C10_solver_totality :
    (∀ (bank : J) (rows : List Row), (suggestFromBank bank rows).length = rows.length)
    ∧ (∀ (j : ℕ) (rows : List Row) (out : List J),
        suggestFromFixedRow j rows = some out → out.length = rows.length)
    ∧ (∀ (bank : J) (rows : List Row), (∀ r ∈ rows, r.R = false) →
        suggestFromBank bank rows
          = rows.map (fun r =>
              if jle r.odds (J.num 0) then J.num 0
              else round2 (jmax0 (jdiv (jmax0 (orZero bank)) r.odds))))
    ∧ (∀ (b : ℚ) (rows : List Row) (l : List (ℚ × Bool)),
        rows.map (fun r => r.odds) = l.map (fun p => J.num p.1) →
        rows.map (fun r => r.R) = l.map Prod.snd →
        (∀ p ∈ l, 0 < p.1) →
        ∀ x ∈ suggestFromBank (J.num b) rows,
          ∃ q : ℚ, x = J.num q ∧ 0 ≤ q ∧ ∃ k : ℤ, q = k / 100)
    ∧ (∀ (j : ℕ) (s oj : ℚ) (fr : Row) (rows : List Row) (l : List (ℚ × Bool)),
        rows.map (fun r => r.odds) = l.map (fun p => J.num p.1) →
        rows.map (fun r => r.R) = l.map Prod.snd →
        (∀ p ∈ l, 0 < p.1) →
        rows[j]? = some fr → fr.R = true → fr.stake = J.num s →
        l[j]? = some (oj, true) →
        ∀ x ∈ (suggestFromFixedRow j rows).getD [],
          ∃ q : ℚ, x = J.num q ∧ 0 ≤ q ∧ ∃ k : ℤ, q = k / 100) := by
  refine ⟨suggestFromBank_length, ?_, suggestFromBank_noR, ?_, ?_⟩
  · intro j rows out h
    exact suggestFromFixedRow_length h
  · intro b rows l ho hr hpos x hx
    rw [suggestFromBank_eq b rows l ho hr hpos] at hx
    obtain ⟨q, hq, rfl⟩ := List.mem_map.mp hx
    obtain ⟨hnn, hc⟩ := bankQ_mem q hq
    exact ⟨q, rfl, hnn, hc⟩
  · intro j s oj fr rows l ho hr hpos hfr hfrR hstake hlj x hx
    rw [suggestFromFixedRow_eq j s oj fr rows l ho hr hpos hfr hfrR hstake hlj] at hx
    simp only [Option.getD_some] at hx
    obtain ⟨q, hq, rfl⟩ := List.mem_map.mp hx
    obtain ⟨hnn, hc⟩ := fixedQ_mem q hq
    exact ⟨q, rfl, hnn, hc⟩

/-- C10 witness: the positive-odds conjunct applied to a concrete one-row
recipient Position with bankroll 100, whose unique output stake is 100. -/
theorem C10_witness :
    ∃ q : ℚ, J.num 100 = J.num q ∧ 0 ≤ q ∧ ∃ k : ℤ, q = k / 100 :=
  C10_solver_totality.2.2.2.1 100 [⟨J.num 2, J.num 0, true, false⟩] [(2, true)]
    (by decide) (by decide) (by decide) (J.num 100) (by decide)

/-- C2 counterexample: a valid bankroll-mode Position (odds 1.5, 1.5, 2,
only the last row a recipient, bankroll 100) whose solver output sums to
133.34: recipient-stake clamping at 0 breaks conservation far beyond any
rounding tolerance. -/
theorem C2_counterexample :
    (validate (St.mk 3 none (J.num 100)
        [⟨J.num (3 / 2), J.num 0, false, false⟩, ⟨J.num (3 / 2), J.num 0, false, false⟩,
         ⟨J.num 2, J.num 0, true, false⟩])).1 = true
    ∧ suggestFromBank (J.num 100)
        [⟨J.num (3 / 2), J.num 0, false, false⟩, ⟨J.num (3 / 2), J.num 0, false, false⟩,
         ⟨J.num 2, J.num 0, true, false⟩]
      = [J.num (6667 / 100), J.num (6667 / 100), J.num 0]
    ∧ ¬(|(6667 / 100 + (6667 / 100 + (0 + 0)) : ℚ) - 100| ≤ 1 / 100) := by
  decide

/-- C2 amended: conservation holds with the tolerances the rounding scheme
actually guarantees.  In bankroll mode, when the Position is valid-shaped,
the inverse-odds sum is at most 1 (so no stake is clamped at 0) and the
residual correction does not clamp, the output stakes sum to the bankroll
within one cent.  In fixed-row mode, away from the degenerate denominator,
the output stakes sum to the derived total T = (sj*oj*AR)/(1 - A + AR)
within n/199 (about half a cent per row, with no residual correction
applied in this mode). -/
theorem C2_conservation_amended :
    (∀ (b : ℚ) (rows : List Row) (l : List (ℚ × Bool)),
      rows.map (fun r => r.odds) = l.map (fun p => J.num p.1) →
      rows.map (fun r => r.R) = l.map Prod.snd →
      (∀ p ∈ l, 0 < p.1) → 0 ≤ b →
      (∃ p ∈ l, p.2 = true) →
      (deltaQ b l ≠ 0 → 0 ≤ (stakes0Q b l).getD (kQ l) 0 + deltaQ b l) →
      ∃ qs : List ℚ, suggestFromBank (J.num b) rows = qs.map J.num
        ∧ |qs.sum - b| ≤ 1 / 100)
    ∧ (∀ (j : ℕ) (s oj : ℚ) (fr : Row) (rows : List Row) (l : List (ℚ × Bool)),
      rows.map (fun r => r.odds) = l.map (fun p => J.num p.1) →
      rows.map (fun r => r.R) = l.map Prod.snd →
      (∀ p ∈ l, 0 < p.1) →
      rows[j]? = some fr → fr.R = true → fr.stake = J.num s →
      l[j]? = some (oj, true) →
      1 / 1000000000000 ≤ fixedDenQ l →
      ∃ qs : List ℚ, suggestFromFixedRow j rows = some (qs.map J.num)
        ∧ |qs.sum - max 0 s * oj * ARQ l / fixedDenQ l| ≤ l.length * (1 / 199)) := by
  constructor
  · intro b rows l ho hr hpos hb hR hcl
    have hmb : max 0 b = b := max_eq_right hb
    refine ⟨bankQ (max 0 b) l, suggestFromBank_eq b rows l ho hr hpos, ?_⟩
    rw [hmb]
    exact bankQ_sum_close hR hcl
  · intro j s oj fr rows l ho hr hpos hfr hfrR hstake hlj hden
    refine ⟨fixedQ j s l, suggestFromFixedRow_eq j s oj fr rows l ho hr hpos hfr hfrR hstake hlj, ?_⟩
    have hojD : fixedOj j l = oj := by
      have h2 : (l.map Prod.fst)[j]? = some oj := by
        rw [List.getElem?_map, hlj]
        rfl
      rw [fixedOj, getD_of_getElem? h2]
    have h1 := fixedQ_sum_close (s := s) hpos hlj hden
    rw [fixedTQ, hojD] at h1
    exact h1

/-- C2 witness: the symmetric two-row bankroll Position. -/
theorem C2_witness :
    ∃ qs : List ℚ, suggestFromBank (J.num 100)
        [⟨J.num 2, J.num 0, true, false⟩, ⟨J.num 2, J.num 0, true, false⟩]
      = qs.map J.num ∧ |qs.sum - 100| ≤ 1 / 100 :=
  C2_conservation_amended.1 100
    [⟨J.num 2, J.num 0, true, false⟩, ⟨J.num 2, J.num 0, true, false⟩]
    [(2, true), (2, true)] (by decide) (by decide) (by decide) (by norm_num)
    ⟨(2, true), by decide, rfl⟩ (by decide)

/-- C1 counterexample: the valid bankroll-mode Position with odds [2, 7],
only row 0 a recipient, bankroll 100.  The solver assigns row 1 the stake
round2(100/7) = 14.29, whose payout 100.03 gives the non-recipient row a
computed profit of 0.03, outside the claimed tolerance of 0.01. -/
theorem C1_counterexample :
    (validate (St.mk 2 none (J.num 100)
        [⟨J.num 2, J.num 0, true, false⟩, ⟨J.num 7, J.num 0, false, false⟩])).1 = true
    ∧ (([⟨J.num 2, J.num 0, true, false⟩, ⟨J.num 7, J.num 0, false, false⟩] :
          List Row)[1]?).map (fun r => r.R) = some false
    ∧ (profitsOf
        (applyStakes [⟨J.num 2, J.num 0, true, false⟩, ⟨J.num 7, J.num 0, false, false⟩]
          (suggestFromBank (J.num 100)
            [⟨J.num 2, J.num 0, true, false⟩, ⟨J.num 7, J.num 0, false, false⟩]))
        (sumStakes
          (applyStakes [⟨J.num 2, J.num 0, true, false⟩, ⟨J.num 7, J.num 0, false, false⟩]
            (suggestFromBank (J.num 100)
              [⟨J.num 2, J.num 0, true, false⟩, ⟨J.num 7, J.num 0, false, false⟩]))))[1]?
      = some (J.num (3 / 100))
    ∧ ¬(|(3 / 100 : ℚ)| ≤ 1 / 100) := by
  decide

/-- C1 amended: on a valid-shaped bankroll-mode Position with inverse-odds
sum at most 1 and a non-clamping residual correction, a non-recipient row's
computed profit (rounded payout minus total staked) is zero within
±(0.01 + (odds_i + 2)/199): the rounding of the stake to whole cents is
amplified by the row's odds, so the tolerance necessarily scales with the
odds. -/
theorem C1_zero_profit_amended (b oi : ℚ) (rows : List Row) (l : List (ℚ × Bool)) (i : ℕ)
    (ho : rows.map (fun r => r.odds) = l.map (fun p => J.num p.1))
    (hr : rows.map (fun r => r.R) = l.map Prod.snd)
    (hpos : ∀ p ∈ l, 0 < p.1) (hb : 0 ≤ b)
    (hR : ∃ p ∈ l, p.2 = true)
    (hcl : deltaQ b l ≠ 0 → 0 ≤ (stakes0Q b l).getD (kQ l) 0 + deltaQ b l)
    (hi : l[i]? = some (oi, false)) :
    ∃ p : ℚ,
      (profitsOf (applyStakes rows (suggestFromBank (J.num b) rows))
        (sumStakes (applyStakes rows (suggestFromBank (J.num b) rows))))[i]?
        = some (J.num p)
      ∧ |p| ≤ 1 / 100 + (oi + 2) * (1 / 199) := by
  have hmb : max 0 b = b := max_eq_right hb
  have hoi : 0 < oi := hpos (oi, false) (List.mem_iff_getElem?.mpr ⟨i, hi⟩)
  have hri : ∃ ri, rows[i]? = some ri := by
    have hlen : rows.length = l.length := by
      have := congrArg List.length ho
      simpa using this
    have hilen : i < rows.length := by
      rw [hlen]
      exact getElem?_some_lt hi
    exact ⟨_, List.getElem?_eq_getElem hilen⟩
  obtain ⟨ri, hri⟩ := hri
  have hq0 : (bankQ b l)[i]? = some (r2 (b / oi)) := bankQ_getElem_nonR hpos hb hi
  have hq : (bankQ (max 0 b) l)[i]? = some (r2 (b / oi)) := by rw [hmb]; exact hq0
  have hqnn : 0 ≤ r2 (b / oi) := r2_nonneg (by positivity)
  have hentry := profits_entry_eq (b := b) ho hr hpos hri hq hqnn hi
  rw [hmb] at hentry
  refine ⟨_, hentry, ?_⟩
  set S := (bankQ b l).sum with hS
  have hcons : |S - b| ≤ 1 / 100 := bankQ_sum_close hR hcl
  have h1 : |r2 (b / oi) - b / oi| ≤ 1 / 199 := abs_r2_sub_le _
  have h2 : |r2 (r2 (b / oi) * oi) - r2 (b / oi) * oi| ≤ 1 / 199 := abs_r2_sub_le _
  have h3 : |r2 (b / oi) * oi - b| ≤ 1 / 199 * oi := by
    have : r2 (b / oi) * oi - b = (r2 (b / oi) - b / oi) * oi := by
      field_simp
    rw [this, abs_mul, abs_of_pos hoi]
    gcongr
  have h5 : |r2 (r2 (r2 (b / oi) * oi) - S) - (r2 (r2 (b / oi) * oi) - S)| ≤ 1 / 199 :=
    abs_r2_sub_le _
  have hfinal : |r2 (r2 (r2 (b / oi) * oi) - S)| ≤ 1 / 100 + (oi + 2) * (1 / 199) := by
    have e1 : r2 (r2 (r2 (b / oi) * oi) - S)
        = (r2 (r2 (r2 (b / oi) * oi) - S) - (r2 (r2 (b / oi) * oi) - S))
          + (r2 (r2 (b / oi) * oi) - r2 (b / oi) * oi)
          + (r2 (b / oi) * oi - b) + (b - S) := by ring
    have habs1 := abs_add
      ((r2 (r2 (r2 (b / oi) * oi) - S) - (r2 (r2 (b / oi) * oi) - S))
        + (r2 (r2 (b / oi) * oi) - r2 (b / oi) * oi)
        + (r2 (b / oi) * oi - b)) (b - S)
    have habs2 := abs_add
      ((r2 (r2 (r2 (b / oi) * oi) - S) - (r2 (r2 (b / oi) * oi) - S))
        + (r2 (r2 (b / oi) * oi) - r2 (b / oi) * oi)) (r2 (b / oi) * oi - b)
    have habs3 := abs_add
      (r2 (r2 (r2 (b / oi) * oi) - S) - (r2 (r2 (b / oi) * oi) - S))
      (r2 (r2 (b / oi) * oi) - r2 (b / oi) * oi)
    have habs4 : |b - S| ≤ 1 / 100 := by rwa [abs_sub_comm]
    rw [e1]
    nlinarith [h2, h3, h5, habs1, habs2, habs3, habs4]
  exact hfinal

/-- C1 witness: symmetric Position with a recipient and a non-recipient row
of odds 2, bankroll 100; the non-recipient profit is exactly 0. -/
theorem C1_witness :
    ∃ p : ℚ,
      (profitsOf (applyStakes [⟨J.num 2, J.num 0, true, false⟩, ⟨J.num 2, J.num 0, false, false⟩]
          (suggestFromBank (J.num 100)
            [⟨J.num 2, J.num 0, true, false⟩, ⟨J.num 2, J.num 0, false, false⟩]))
        (sumStakes (applyStakes [⟨J.num 2, J.num 0, true, false⟩, ⟨J.num 2, J.num 0, false, false⟩]
          (suggestFromBank (J.num 100)
            [⟨J.num 2, J.num 0, true, false⟩, ⟨J.num 2, J.num 0, false, false⟩]))))[1]?
        = some (J.num p)
      ∧ |p| ≤ 1 / 100 + (2 + 2) * (1 / 199) :=
  C1_zero_profit_amended 100 2
    [⟨J.num 2, J.num 0, true, false⟩, ⟨J.num 2, J.num 0, false, false⟩]
    [(2, true), (2, false)] 1 (by decide) (by decide) (by decide) (by norm_num)
    ⟨(2, true), by decide, rfl⟩ (by decide) (by decide)

/-- C7 counterexample: the valid bankroll-mode Position with odds [2, 7],
both rows recipients, bankroll 100.  The solver stakes are [77.78, 22.22];
the rounded payouts 155.56 and 155.54 give computed profits 55.56 and 55.54,
which differ by 0.02 - more than the claimed tolerance of 0.01. -/
theorem C7_counterexample :
    (validate (St.mk 2 none (J.num 100)
        [⟨J.num 2, J.num 0, true, false⟩, ⟨J.num 7, J.num 0, true, false⟩])).1 = true
    ∧ (profitsOf
        (applyStakes [⟨J.num 2, J.num 0, true, false⟩, ⟨J.num 7, J.num 0, true, false⟩]
          (suggestFromBank (J.num 100)
            [⟨J.num 2, J.num 0, true, false⟩, ⟨J.num 7, J.num 0, true, false⟩]))
        (sumStakes
          (applyStakes [⟨J.num 2, J.num 0, true, false⟩, ⟨J.num 7, J.num 0, true, false⟩]
            (suggestFromBank (J.num 100)
              [⟨J.num 2, J.num 0, true, false⟩, ⟨J.num 7, J.num 0, true, false⟩]))))
      = [J.num (1389 / 25), J.num (2777 / 50)]
    ∧ ¬(|(1389 / 25 : ℚ) - 2777 / 50| ≤ 1 / 100) := by
  decide

/-- C7 amended: on a valid-shaped bankroll-mode Position where every row is
a recipient (with positive finite odds, a non-negative bankroll and a
non-clamping residual correction), any two rows' computed profits agree
within ±((4 + (n + 2) * (odds_i + odds_j)) / 199): the cent-rounding of each
recipient stake (and the residual absorbed by the first recipient) is
amplified by that row's odds, so the tolerance necessarily scales with the
odds and the row count. -/
theorem C7_equal_profit_amended (b oi oj : ℚ) (rows : List Row) (l : List (ℚ × Bool))
    (i j : ℕ)
    (ho : rows.map (fun r => r.odds) = l.map (fun p => J.num p.1))
    (hr : rows.map (fun r => r.R) = l.map Prod.snd)
    (hpos : ∀ p ∈ l, 0 < p.1) (hb : 0 ≤ b)
    (hall : ∀ p ∈ l, p.2 = true)
    (hcl : deltaQ b l ≠ 0 → 0 ≤ (stakes0Q b l).getD (kQ l) 0 + deltaQ b l)
    (hi : l[i]? = some (oi, true)) (hj : l[j]? = some (oj, true)) :
    ∃ pi pj : ℚ,
      (profitsOf (applyStakes rows (suggestFromBank (J.num b) rows))
        (sumStakes (applyStakes rows (suggestFromBank (J.num b) rows))))[i]?
        = some (J.num pi)
      ∧ (profitsOf (applyStakes rows (suggestFromBank (J.num b) rows))
          (sumStakes (applyStakes rows (suggestFromBank (J.num b) rows))))[j]?
          = some (J.num pj)
      ∧ |pi - pj| ≤ (4 + (l.length + 2) * (oi + oj)) * (1 / 199) := by
  have hmb : max 0 b = b := max_eq_right hb
  have hlen : rows.length = l.length := by
    have := congrArg List.length ho
    simpa using this
  have hR : ∃ p ∈ l, p.2 = true := ⟨(oi, true), List.mem_iff_getElem?.mpr ⟨i, hi⟩, rfl⟩
  have hTK : 0 ≤ b + KQ b l := TK_nonneg_of_all hall hb
  have hrowi : ∃ ri, rows[i]? = some ri :=
    ⟨_, List.getElem?_eq_getElem (by rw [hlen]; exact getElem?_some_lt hi)⟩
  have hrowj : ∃ rj, rows[j]? = some rj :=
    ⟨_, List.getElem?_eq_getElem (by rw [hlen]; exact getElem?_some_lt hj)⟩
  obtain ⟨ri, hri⟩ := hrowi
  obtain ⟨rj, hrj⟩ := hrowj
  obtain ⟨qi, hqi, hqibound⟩ := bankQ_getElem_R hpos hR hTK hb hcl hi
  obtain ⟨qj, hqj, hqjbound⟩ := bankQ_getElem_R hpos hR hTK hb hcl hj
  have hqinn : 0 ≤ qi := by
    have := (bankQ_mem qi (List.mem_iff_getElem?.mpr ⟨i, hqi⟩)).1
    exact this
  have hqjnn : 0 ≤ qj := by
    have := (bankQ_mem qj (List.mem_iff_getElem?.mpr ⟨j, hqj⟩)).1
    exact this
  have hqi2 : (bankQ (max 0 b) l)[i]? = some qi := by rw [hmb]; exact hqi
  have hqj2 : (bankQ (max 0 b) l)[j]? = some qj := by rw [hmb]; exact hqj
  have hentryi := profits_entry_eq (b := b) ho hr hpos hri hqi2 hqinn hi
  have hentryj := profits_entry_eq (b := b) ho hr hpos hrj hqj2 hqjnn hj
  rw [hmb] at hentryi hentryj
  refine ⟨_, _, hentryi, hentryj, ?_⟩
  set S := (bankQ b l).sum with hS
  set TK := b + KQ b l with hTK
  have h2i : |r2 (qi * oi) - qi * oi| ≤ 1 / 199 := abs_r2_sub_le _
  have h2j : |r2 (qj * oj) - qj * oj| ≤ 1 / 199 := abs_r2_sub_le _
  have h5i : |r2 (r2 (qi * oi) - S) - (r2 (qi * oi) - S)| ≤ 1 / 199 := abs_r2_sub_le _
  have h5j : |r2 (r2 (qj * oj) - S) - (r2 (qj * oj) - S)| ≤ 1 / 199 := abs_r2_sub_le _
  have e1 : r2 (r2 (qi * oi) - S) - r2 (r2 (qj * oj) - S)
      = (r2 (r2 (qi * oi) - S) - (r2 (qi * oi) - S))
        - (r2 (r2 (qj * oj) - S) - (r2 (qj * oj) - S))
        + (r2 (qi * oi) - qi * oi) - (r2 (qj * oj) - qj * oj)
        + (qi * oi - TK) - (qj * oj - TK) := by
    rw [hTK]
    ring
  have hoipos : 0 < oi := hpos (oi, true) (List.mem_iff_getElem?.mpr ⟨i, hi⟩)
  have hojpos : 0 < oj := hpos (oj, true) (List.mem_iff_getElem?.mpr ⟨j, hj⟩)
  have hn0 : (0 : ℚ) ≤ (l.length : ℚ) := Nat.cast_nonneg _
  have hb1 := abs_sub_abs_le_abs_sub (r2 (r2 (qi * oi) - S)) (r2 (r2 (qj * oj) - S))
  rw [e1]
  have t1 : |r2 (r2 (qi * oi) - S) - (r2 (qi * oi) - S)
      - (r2 (r2 (qj * oj) - S) - (r2 (qj * oj) - S))
      + (r2 (qi * oi) - qi * oi) - (r2 (qj * oj) - qj * oj)
      + (qi * oi - TK) - (qj * oj - TK)|
      ≤ |r2 (r2 (qi * oi) - S) - (r2 (qi * oi) - S)|
        + |r2 (r2 (qj * oj) - S) - (r2 (qj * oj) - S)|
        + |r2 (qi * oi) - qi * oi| + |r2 (qj * oj) - qj * oj|
        + |qi * oi - TK| + |qj * oj - TK| := by
    have a1 := abs_sub (r2 (r2 (qi * oi) - S) - (r2 (qi * oi) - S))
      (r2 (r2 (qj * oj) - S) - (r2 (qj * oj) - S))
    have a2 := abs_add (r2 (r2 (qi * oi) - S) - (r2 (qi * oi) - S)
      - (r2 (r2 (qj * oj) - S) - (r2 (qj * oj) - S))) (r2 (qi * oi) - qi * oi)
    have a3 := abs_sub (r2 (r2 (qi * oi) - S) - (r2 (qi * oi) - S)
      - (r2 (r2 (qj * oj) - S) - (r2 (qj * oj) - S))
      + (r2 (qi * oi) - qi * oi)) (r2 (qj * oj) - qj * oj)
    have a4 := abs_add (r2 (r2 (qi * oi) - S) - (r2 (qi * oi) - S)
      - (r2 (r2 (qj * oj) - S) - (r2 (qj * oj) - S))
      + (r2 (qi * oi) - qi * oi) - (r2 (qj * oj) - qj * oj)) (qi * oi - TK)
    have a5 := abs_sub (r2 (r2 (qi * oi) - S) - (r2 (qi * oi) - S)
      - (r2 (r2 (qj * oj) - S) - (r2 (qj * oj) - S))
      + (r2 (qi * oi) - qi * oi) - (r2 (qj * oj) - qj * oj)
      + (qi * oi - TK)) (qj * oj - TK)
    linarith
  calc |r2 (r2 (qi * oi) - S) - (r2 (qi * oi) - S)
      - (r2 (r2 (qj * oj) - S) - (r2 (qj * oj) - S))
      + (r2 (qi * oi) - qi * oi) - (r2 (qj * oj) - qj * oj)
      + (qi * oi - TK) - (qj * oj - TK)|
      ≤ |r2 (r2 (qi * oi) - S) - (r2 (qi * oi) - S)|
        + |r2 (r2 (qj * oj) - S) - (r2 (qj * oj) - S)|
        + |r2 (qi * oi) - qi * oi| + |r2 (qj * oj) - qj * oj|
        + |qi * oi - TK| + |qj * oj - TK| := t1
    _ ≤ 1 / 199 + 1 / 199 + 1 / 199 + 1 / 199
        + (l.length + 2) * (1 / 199) * oi + (l.length + 2) * (1 / 199) * oj := by
        have := hqibound
        have := hqjbound
        rw [hTK]
        gcongr
    _ = (4 + (l.length + 2) * (oi + oj)) * (1 / 199) := by ring

/-- C7 witness: the symmetric two-recipient Position of odds [2, 2] and
bankroll 100; both profits are exactly 0. -/
theorem C7_witness :
    ∃ pi pj : ℚ,
      (profitsOf (applyStakes [⟨J.num 2, J.num 0, true, false⟩, ⟨J.num 2, J.num 0, true, false⟩]
          (suggestFromBank (J.num 100)
            [⟨J.num 2, J.num 0, true, false⟩, ⟨J.num 2, J.num 0, true, false⟩]))
        (sumStakes (applyStakes [⟨J.num 2, J.num 0, true, false⟩, ⟨J.num 2, J.num 0, true, false⟩]
          (suggestFromBank (J.num 100)
            [⟨J.num 2, J.num 0, true, false⟩, ⟨J.num 2, J.num 0, true, false⟩]))))[0]?
        = some (J.num pi)
      ∧ (profitsOf (applyStakes [⟨J.num 2, J.num 0, true, false⟩, ⟨J.num 2, J.num 0, true, false⟩]
          (suggestFromBank (J.num 100)
            [⟨J.num 2, J.num 0, true, false⟩, ⟨J.num 2, J.num 0, true, false⟩]))
        (sumStakes (applyStakes [⟨J.num 2, J.num 0, true, false⟩, ⟨J.num 2, J.num 0, true, false⟩]
          (suggestFromBank (J.num 100)
            [⟨J.num 2, J.num 0, true, false⟩, ⟨J.num 2, J.num 0, true, false⟩]))))[1]?
        = some (J.num pj)
      ∧ |pi - pj| ≤ (4 + (2 + 2) * (2 + 2)) * (1 / 199) := by
  have h := C7_equal_profit_amended 100 2 2
    [⟨J.num 2, J.num 0, true, false⟩, ⟨J.num 2, J.num 0, true, false⟩]
    [(2, true), (2, true)] 0 1 (by decide) (by decide) (by decide) (by norm_num)
    (by decide) (by decide) (by decide) (by decide)
  simpa using h

lemma St_eq {a b : St} (h1 : a.n = b.n) (h2 : a.fixedIndex = b.fixedIndex)
    (h3 : a.bank = b.bank) (h4 : a.rows = b.rows) : a = b := by
  cases a
  cases b
  dsimp only at h1 h2 h3 h4
  subst h1
  subst h2
  subst h3
  subst h4
  rfl

lemma sumStakes_num_nonneg (rows : List Row) :
    ∃ t : ℚ, sumStakes rows = J.num t ∧ 0 ≤ t := by
  rw [sumStakes]
  suffices haux : ∀ a : ℚ, 0 ≤ a → ∃ t : ℚ,
      rows.foldl (fun s r => jadd s (if isNum r.stake then jmax0 r.stake else J.num 0))
        (J.num a) = J.num t ∧ 0 ≤ t by
    obtain ⟨t, ht, htnn⟩ := haux 0 (le_refl 0)
    exact ⟨r2 t, by rw [ht, round2_num], r2_nonneg htnn⟩
  induction rows with
  | nil => intro a ha; exact ⟨a, rfl, ha⟩
  | cons r rows ih =>
    intro a ha
    simp only [List.foldl_cons]
    cases hst : r.stake with
    | num q =>
      rw [show (if isNum (J.num q) = true then jmax0 (J.num q) else J.num 0)
            = J.num (max 0 q) from rfl, jadd_num]
      exact ih (a + max 0 q) (by positivity)
    | inf =>
      rw [show (if isNum J.inf = true then jmax0 J.inf else J.num 0) = J.num 0 from rfl,
        jadd_num]
      exact ih (a + 0) (by linarith)
    | ninf =>
      rw [show (if isNum J.ninf = true then jmax0 J.ninf else J.num 0) = J.num 0 from rfl,
        jadd_num]
      exact ih (a + 0) (by linarith)
    | nan =>
      rw [show (if isNum J.nan = true then jmax0 J.nan else J.num 0) = J.num 0 from rfl,
        jadd_num]
      exact ih (a + 0) (by linarith)

lemma suggestFromFixedRow_isSome {j : ℕ} {rows : List Row} {fr : Row}
    (hfr : rows[j]? = some fr) (hfrR : fr.R = true) :
    ∃ out, suggestFromFixedRow j rows = some out := by
  rw [suggestFromFixedRow, hfr]
  dsimp only
  rw [if_neg (by simp [hfrR])]
  exact ⟨_, rfl⟩

lemma recalc_snd_total (st : St) (bv : J) (sf : List Bool) (bf : Bool) :
    (recalc st bv sf bf).2.total = sumStakes ((recalc st bv sf bf).1.rows) := rfl

lemma recalc_snd_payouts (st : St) (bv : J) (sf : List Bool) (bf : Bool) :
    (recalc st bv sf bf).2.payouts = payoutsOf ((recalc st bv sf bf).1.rows) := rfl

lemma recalc_snd_profits (st : St) (bv : J) (sf : List Bool) (bf : Bool) :
    (recalc st bv sf bf).2.profits
      = profitsOf ((recalc st bv sf bf).1.rows) (sumStakes ((recalc st bv sf bf).1.rows)) := rfl

lemma recalc_snd_sInv (st : St) (bv : J) (sf : List Bool) (bf : Bool) :
    (recalc st bv sf bf).2.sInv
      = invSumOdds (((recalc st bv sf bf).1.rows).map (fun r => r.odds)) := rfl

lemma recalc_snd_isArb (st : St) (bv : J) (sf : List Bool) (bf : Bool) :
    (recalc st bv sf bf).2.isArb
      = isArbOf (((recalc st bv sf bf).1.rows).map (fun r => r.odds)) := rfl

lemma recalc_snd_roiRow (st : St) (bv : J) (sf : List Bool) (bf : Bool) :
    (recalc st bv sf bf).2.roiRow
      = (match (ensureRows st).fixedIndex with
         | some j => j
         | none =>
           match ((recalc st bv sf bf).1.rows).findIdx? (fun r => r.R) with
           | some k => k
           | none => 0) := rfl

lemma recalc_snd_roi (st : St) (bv : J) (sf : List Bool) (bf : Bool) :
    (recalc st bv sf bf).2.roi
      = (if jlt (J.num 0) ((recalc st bv sf bf).2.total) then
          jdiv (jsub (((recalc st bv sf bf).2.payouts).getD ((recalc st bv sf bf).2.roiRow)
              (J.num 0)) ((recalc st bv sf bf).2.total)) ((recalc st bv sf bf).2.total)
         else J.num 0) := rfl

lemma recalc_snd_bankDisp_unfocused (st : St) (bv : J) (sf : List Bool) :
    (recalc st bv sf false).2.bankDisp = sumStakes ((recalc st bv sf false).1.rows) := rfl

/-- C8: the recompute pass is NOT idempotent on every unfocused snapshot.
Counterexample: two rows at odds 2, the first manual with stake 100, and a
bankroll input of 1000.  The snapshot validates, yet the first pass suggests
500 for the non-manual recipient row and displays bank 600 (the stake sum,
not the input 1000), so the second pass — driven by the displayed bank 600 —
re-suggests 300 and changes the state again. -/
theorem C8_counterexample :
    (validate (St.mk 2 none (J.num 1000)
      [⟨J.num 2, J.num 100, true, true⟩, ⟨J.num 2, J.num 0, true, false⟩])).1 = true
    ∧ (recalc (recalc (St.mk 2 none (J.num 0)
          [⟨J.num 2, J.num 100, true, true⟩, ⟨J.num 2, J.num 0, true, false⟩])
          (J.num 1000) [] false).1
        ((recalc (St.mk 2 none (J.num 0)
          [⟨J.num 2, J.num 100, true, true⟩, ⟨J.num 2, J.num 0, true, false⟩])
          (J.num 1000) [] false).1.bank) [] false).1
      ≠ (recalc (St.mk 2 none (J.num 0)
          [⟨J.num 2, J.num 100, true, true⟩, ⟨J.num 2, J.num 0, true, false⟩])
          (J.num 1000) [] false).1 := by decide

/-- C8 (amended): the pass IS idempotent whenever its bank feedback is a
fixed point, namely (A) in fixed-row mode (the fixed index survives
`ensureRows` and points at a recipient row, so the solver ignores the bank),
or (B) in bankroll mode when the stake total written back into the bank
equals the effective bankroll `max(0, bank || 0)` of the first pass.  Then a
second unfocused pass fed the displayed bank reproduces the state and every
displayed output of the first. -/
theorem C8_idempotence_amended (st : St) (bv : J)
    (h : (∃ j fr, (ensureRows st).fixedIndex = some j
            ∧ (ensureRows st).rows[j]? = some fr ∧ fr.R = true)
       ∨ ((ensureRows st).fixedIndex = none
            ∧ (recalc st bv [] false).1.bank = jmax0 (orZero bv))) :
    (recalc (recalc st bv [] false).1 ((recalc st bv [] false).1.bank) [] false).1
      = (recalc st bv [] false).1
    ∧ (recalc (recalc st bv [] false).1 ((recalc st bv [] false).1.bank) [] false).2.total
      = (recalc st bv [] false).2.total
    ∧ (recalc (recalc st bv [] false).1 ((recalc st bv [] false).1.bank) [] false).2.payouts
      = (recalc st bv [] false).2.payouts
    ∧ (recalc (recalc st bv [] false).1 ((recalc st bv [] false).1.bank) [] false).2.profits
      = (recalc st bv [] false).2.profits
    ∧ (recalc (recalc st bv [] false).1 ((recalc st bv [] false).1.bank) [] false).2.sInv
      = (recalc st bv [] false).2.sInv
    ∧ (recalc (recalc st bv [] false).1 ((recalc st bv [] false).1.bank) [] false).2.isArb
      = (recalc st bv [] false).2.isArb
    ∧ (recalc (recalc st bv [] false).1 ((recalc st bv [] false).1.bank) [] false).2.roiRow
      = (recalc st bv [] false).2.roiRow
    ∧ (recalc (recalc st bv [] false).1 ((recalc st bv [] false).1.bank) [] false).2.roi
      = (recalc st bv [] false).2.roi
    ∧ (recalc (recalc st bv [] false).1 ((recalc st bv [] false).1.bank) [] false).2.bankDisp
      = (recalc st bv [] false).2.bankDisp := by
  have hfi1 : (recalc st bv [] false).1.fixedIndex = (ensureRows st).fixedIndex :=
    recalc_fst_fixedIndex st bv [] false
  have hrows1 : (recalc st bv [] false).1.rows
      = mergeRows (ensureRows st).fixedIndex
          (suggestedFor { ensureRows st with bank := bv }) [] 0 (ensureRows st).rows :=
    recalc_fst_rows st bv [] false
  have hn1 : (recalc st bv [] false).1.n = st.n := recalc_fst_n st bv [] false
  have hbank1 : (recalc st bv [] false).1.bank
      = sumStakes ((recalc st bv [] false).1.rows) := recalc_fst_bank_unfocused st bv []
  have hens : ensureRows (recalc st bv [] false).1 = (recalc st bv [] false).1 := by
    apply ensureRows_eq_self
    · rw [hrows1, hn1, mergeRows_length, ensureRows_rows_length]
    · intro j hj
      rw [hn1]
      rw [hfi1] at hj
      exact ensureRows_fixedIndex_lt hj
  have hsug : suggestedFor
        { (recalc st bv [] false).1 with bank := (recalc st bv [] false).1.bank }
      = suggestedFor { ensureRows st with bank := bv } := by
    rcases h with ⟨j, fr, hfij, hfr, hfrR⟩ | ⟨hfin, hB⟩
    · have hrows1j : (recalc st bv [] false).1.rows
          = mergeRows (some j)
              (suggestedFor { ensureRows st with bank := bv }) [] 0 (ensureRows st).rows := by
        rw [hrows1, hfij]
      obtain ⟨out, hout⟩ := suggestFromFixedRow_isSome hfr hfrR
      have hcongr : suggestFromFixedRow j ((recalc st bv [] false).1.rows)
          = suggestFromFixedRow j ((ensureRows st).rows) := by
        apply suggestFromFixedRow_congr
        · rw [hrows1j]; exact mergeRows_map_odds _ _ _ _ 0
        · rw [hrows1j]; exact mergeRows_map_R _ _ _ _ 0
        · rw [hrows1j]; exact mergeRows_fixed_getElem? _ _ _ j
      simp only [suggestedFor]
      rw [hfi1, hfij]
      dsimp only
      rw [hcongr, hout]
    · simp only [suggestedFor]
      rw [hfi1, hfin]
      dsimp only
      apply suggestFromBank_congr
      · obtain ⟨t, ht, htnn⟩ := sumStakes_num_nonneg ((recalc st bv [] false).1.rows)
        have hsb : (recalc st bv [] false).1.bank = J.num t := by rw [hbank1, ht]
        rw [hsb] at hB ⊢
        rw [← hB]
        show J.num (max 0 t) = J.num t
        rw [max_eq_right htnn]
      · rw [hrows1]; exact mergeRows_map_odds _ _ _ _ 0
      · rw [hrows1]; exact mergeRows_map_R _ _ _ _ 0
  have hrows2 : (recalc (recalc st bv [] false).1 ((recalc st bv [] false).1.bank)
        [] false).1.rows = (recalc st bv [] false).1.rows := by
    rw [recalc_fst_rows, hens, hsug, hfi1]
    rw [hrows1]
    exact mergeRows_idem _ _ _ _ 0
  have hstate : (recalc (recalc st bv [] false).1 ((recalc st bv [] false).1.bank)
        [] false).1 = (recalc st bv [] false).1 := by
    apply St_eq
    · rw [recalc_fst_n]
    · rw [recalc_fst_fixedIndex, hens]
    · rw [recalc_fst_bank_unfocused, hrows2, ← hbank1]
    · exact hrows2
  have htotal : (recalc (recalc st bv [] false).1 ((recalc st bv [] false).1.bank)
        [] false).2.total = (recalc st bv [] false).2.total := by
    rw [recalc_snd_total, recalc_snd_total, hrows2]
  have hpay : (recalc (recalc st bv [] false).1 ((recalc st bv [] false).1.bank)
        [] false).2.payouts = (recalc st bv [] false).2.payouts := by
    rw [recalc_snd_payouts, recalc_snd_payouts, hrows2]
  have hprof : (recalc (recalc st bv [] false).1 ((recalc st bv [] false).1.bank)
        [] false).2.profits = (recalc st bv [] false).2.profits := by
    rw [recalc_snd_profits, recalc_snd_profits, hrows2]
  have hsInv : (recalc (recalc st bv [] false).1 ((recalc st bv [] false).1.bank)
        [] false).2.sInv = (recalc st bv [] false).2.sInv := by
    rw [recalc_snd_sInv, recalc_snd_sInv, hrows2]
  have harb : (recalc (recalc st bv [] false).1 ((recalc st bv [] false).1.bank)
        [] false).2.isArb = (recalc st bv [] false).2.isArb := by
    rw [recalc_snd_isArb, recalc_snd_isArb, hrows2]
  have hroiRow : (recalc (recalc st bv [] false).1 ((recalc st bv [] false).1.bank)
        [] false).2.roiRow = (recalc st bv [] false).2.roiRow := by
    rw [recalc_snd_roiRow, recalc_snd_roiRow, hens, hfi1, hrows2]
  have hroi : (recalc (recalc st bv [] false).1 ((recalc st bv [] false).1.bank)
        [] false).2.roi = (recalc st bv [] false).2.roi := by
    rw [recalc_snd_roi, recalc_snd_roi, htotal, hpay, hroiRow]
  have hdisp : (recalc (recalc st bv [] false).1 ((recalc st bv [] false).1.bank)
        [] false).2.bankDisp = (recalc st bv [] false).2.bankDisp := by
    rw [recalc_snd_bankDisp_unfocused, recalc_snd_bankDisp_unfocused, hrows2]
  exact ⟨hstate, htotal, hpay, hprof, hsInv, harb, hroiRow, hroi, hdisp⟩

/-- A concrete fixed-row-mode snapshot instantiating the amended idempotence
theorem: row 0 is fixed and a recipient. -/
def c8wSt : St :=
  St.mk 2 (some 0) (J.num 0)
    [⟨J.num 2, J.num 10, true, false⟩, ⟨J.num 2, J.num 0, true, false⟩]

/-- C8 witness: the amended idempotence theorem applies to the concrete
fixed-row snapshot `c8wSt` with bankroll input 50, and the second pass
reproduces the first pass's state. -/
theorem C8_witness :
    ((∃ j fr, (ensureRows c8wSt).fixedIndex = some j
        ∧ (ensureRows c8wSt).rows[j]? = some fr ∧ fr.R = true)
      ∨ ((ensureRows c8wSt).fixedIndex = none
        ∧ (recalc c8wSt (J.num 50) [] false).1.bank = jmax0 (orZero (J.num 50))))
    ∧ (recalc (recalc c8wSt (J.num 50) [] false).1
        ((recalc c8wSt (J.num 50) [] false).1.bank) [] false).1
      = (recalc c8wSt (J.num 50) [] false).1 :=
  ⟨Or.inl ⟨0, ⟨J.num 2, J.num 10, true, false⟩, rfl, rfl, rfl⟩,
   (C8_idempotence_amended c8wSt (J.num 50)
     (Or.inl ⟨0, ⟨J.num 2, J.num 10, true, false⟩, rfl, rfl, rfl⟩)).1⟩

end ArbCalc
